import Mathlib

/-!
Verification development for the btccrawler repository.

The Go sources are shallowly embedded as executable Lean definitions:

* bytes are `Nat` values below 256, byte buffers are `List Nat`;
* Go `uint64`/`int` values decoded from at most 8 bytes are `Nat`;
* Go `int64` database values (ids, timestamps) are `Int`;
* fallible Go functions returning `(value, err)` become `Except String value`;
* the SQLite tables become lists of row structures; the writer transaction
  (`nodeDB.Save` and its helpers) becomes a pure state transformer on them;
* `net.IP` values are represented by their canonical textual rendering
  (`net.IP.String()`), which is injective on the 16-byte addresses the
  codec produces, and ports by their decimal rendering (`strconv.Itoa`);
* a TCP connection, as seen by the per-peer protocol driver `refreshNode`,
  is modelled by the sequence of results of its successive `receiveMessage`
  calls (a finite list; exhaustion models the read deadline firing, which
  surfaces as a receive error) together with the results of its successive
  `sendMessage` calls (a total function, since sends never block).
-/

namespace BtcCrawler

deriving instance DecidableEq for Except

/-! ## Byte-level helpers (encoding/binary, util.go) -/

/-- Little-endian interpretation of a byte list (binary.LittleEndian). -/
def leNat : List Nat → Nat
  | [] => 0
  | b :: rest => b + 256 * leNat rest

/-- Big-endian interpretation of a byte list (binary.BigEndian). -/
def beNat (l : List Nat) : Nat := l.foldl (fun acc b => acc * 256 + b) 0

/-- Little-endian encoding of `n` on `k` bytes. -/
def toLE : Nat → Nat → List Nat
  | 0, _ => []
  | k + 1, n => n % 256 :: toLE k (n / 256)

/-- Big-endian encoding of `n` on `k` bytes. -/
def toBE (k n : Nat) : List Nat := (toLE k n).reverse

/-- Go `int32(u)` reinterpretation of a 32-bit unsigned value. -/
def toInt32 (n : Nat) : Int :=
  if n < 2 ^ 31 then (n : Int) else (n : Int) - 2 ^ 32

/-- Bytes to Go string (ASCII). -/
def asciiString (l : List Nat) : String := String.mk (l.map Char.ofNat)

/-- bytes.TrimRight(data, string(0)). -/
def trimRightZeros (l : List Nat) : List Nat :=
  (l.reverse.dropWhile (· = 0)).reverse

/-! ## varInt / varStr (util.go)

`varInt` reads a variable length integer: a single byte below `0xFD` is the
value itself; `0xFD`, `0xFE`, `0xFF` prefix a little-endian u16, u32, u64.
It returns the value and the number of bytes consumed.  The embedding keeps
the source's behaviour byte for byte, including the `n = 5` it returns in the
`0xFF` branch. -/

def varInt (data : List Nat) : Except String (Nat × Nat) :=
  match data with
  | [] => .error "varInt: Not enough data"
  | b :: rest =>
    if b = 0xfd then
      if data.length < 3 then .error "varInt: Not enough data for uint16"
      else .ok (leNat (rest.take 2), 3)
    else if b = 0xfe then
      if data.length < 5 then .error "varInt: Not enough data for uint32"
      else .ok (leNat (rest.take 4), 5)
    else if b = 0xff then
      if data.length < 9 then .error "varInt: Not enough data for uint64"
      else .ok (leNat (rest.take 8), 5)
    else
      .ok (b, 1)

/-- varStr: varInt length followed by that many bytes; trailing NULs trimmed. -/
def varStr (data : List Nat) : Except String (String × Nat) :=
  match varInt data with
  | .error e => .error e
  | .ok (length, n) =>
    if length = 0 then .ok ("", n)
    else if data.length < n + length then .error "varStr: Not enough data"
    else .ok (asciiString (trimRightZeros ((data.drop n).take length)), n + length)

/-- Modelled from the spec: the canonical varint encoding (the repository has
no encoder; the spec defines the format as: single byte < 0xFD is itself;
`0xFD` + u16; `0xFE` + u32; `0xFF` + u64, all little-endian). -/
def encode_varint (n : Nat) : List Nat :=
  if n < 0xfd then [n]
  else if n ≤ 0xffff then 0xfd :: toLE 2 n
  else if n ≤ 0xffffffff then 0xfe :: toLE 4 n
  else 0xff :: toLE 8 n

/-! ## Constants (const.go) -/

/-- Magic numbers specific to each network. -/
def NETWORK_MAIN : List Nat := [0xF9, 0xBE, 0xB4, 0xD9]

def NETWORK_TESTNET : List Nat := [0xFA, 0xBF, 0xB5, 0xDA]

def NETWORK_TESTNET3 : List Nat := [0x0B, 0x11, 0x09, 0x07]

def NETWORK_NAMECOIN : List Nat := [0xF9, 0xBE, 0xB4, 0xFE]

/-- The network in use. -/
def NETWORK_CURRENT : List Nat := NETWORK_MAIN

/-- Maximum size payload that a message can have. -/
def MAX_PAYLOAD : Nat := 1024 * 100

def VERSION_BIP_0037 : Nat := 70001

def SIZE_NETADDR : Nat := 26

def SIZE_NETADDR_WITH_TIME : Nat := 30

def NUM_CONNECTION_GOROUTINES : Nat := 20

def NODE_BUFFER_SIZE : Nat := 20

def NUM_DB_CONN : Nat := 10

/-- Number of addresses to fetch. -/
def ADDRESSES_NUM : Nat := 5000

/-- Minimum update interval for nodes (hours). -/
def NODE_REFRESH_INTERVAL : Int := 24

/-- Capacity of the endpoint queue created in main: make(chan ip_port, 2*ADDRESSES_NUM). -/
def ADDRESSES_QUEUE_CAP : Nat := 2 * ADDRESSES_NUM

/-! ## Typed payloads (msgparsing.go) -/

/-- A BTC net_addr.  `Timestamp` is kept as the raw decoded UNIX seconds
(Go stores `time.Unix(..)`; the zero value stands for an absent field). -/
structure NetAddr where
  Timestamp : Nat := 0
  Services : Nat := 0
  IP : List Nat := []
  Port : Nat := 0
  deriving Repr, DecidableEq

/-- A BTC version message. -/
structure MsgVersion where
  Protocol : Nat
  Services : Nat
  Timestamp : Nat
  AddrLocal : NetAddr
  AddrRemote : NetAddr
  Nonce : Nat
  UserAgent : String
  StartHeight : Int
  Relay : Bool
  deriving Repr, DecidableEq

/-- A framed message: command name and opaque payload.  The Go field
`Type` is a reserved word in Lean and is rendered `MsgType`. -/
structure Message where
  MsgType : String
  Payload : List Nat
  deriving Repr, DecidableEq

/-- Parse a network address from a slice that must hold exactly the
net_addr (30 bytes with the leading u32 time, 26 without). -/
def parseNetAddr (data : List Nat) (time_field : Bool) : Except String NetAddr :=
  if (time_field ∧ data.length ≠ SIZE_NETADDR_WITH_TIME) ∨
     (¬ time_field ∧ data.length ≠ SIZE_NETADDR) then
    .error "parseNetAddr: Unexpected data size"
  else
    let ts := if time_field then leNat (data.take 4) else 0
    let d := if time_field then data.drop 4 else data
    .ok { Timestamp := ts
          Services := leNat (d.take 8)
          IP := (d.drop 8).take 16
          Port := beNat ((d.drop 24).take 2) }

/-- Parse a version message payload. -/
def parseVersion (msg : Message) : Except String MsgVersion :=
  let p := msg.Payload
  if p.length < 81 then .error "parseVersion: Payload too small"
  else
    match parseNetAddr ((p.drop 20).take 26) false with
    | .error e => .error e
    | .ok addrLocal =>
    match parseNetAddr ((p.drop 46).take 26) false with
    | .error e => .error e
    | .ok addrRemote =>
    match varStr (p.drop 80) with
    | .error e => .error e
    | .ok (ua, n) =>
      let data := p.drop (80 + n)
      if data.length < 4 then .error "parseVersion: Payload too small for start_height"
      else
        let protocol := leNat (p.take 4)
        .ok { Protocol := protocol
              Services := leNat ((p.drop 4).take 8)
              Timestamp := leNat ((p.drop 12).take 8)
              AddrLocal := addrLocal
              AddrRemote := addrRemote
              Nonce := leNat ((p.drop 72).take 8)
              UserAgent := ua
              StartHeight := toInt32 (leNat (data.take 4))
              Relay := protocol ≥ VERSION_BIP_0037 ∧ data.length = 5 ∧
                       (data.drop 4).headD 0 ≠ 0 }

/-- Parse an addr message: a var_int count followed by that many
30-byte net_addr entries (with time). -/
def parseAddr (msg : Message) : Except String (List NetAddr) :=
  match varInt msg.Payload with
  | .error e => .error e
  | .ok (length, n) =>
    if msg.Payload.length < n + length * SIZE_NETADDR_WITH_TIME then
      .error "parseAddr: Payload too small"
    else
      (List.range length).mapM fun i =>
        parseNetAddr (((msg.Payload.drop (n + i * SIZE_NETADDR_WITH_TIME))).take
          SIZE_NETADDR_WITH_TIME) true

/-! ## SHA-256 (crypto/sha256, used by util.go doubleSha256) -/

namespace Sha256

def w32 (n : Nat) : Nat := n % 4294967296

def rotr (x n : Nat) : Nat := w32 ((x >>> n) ||| (x <<< (32 - n)))

def bsig0 (x : Nat) : Nat := (rotr x 2) ^^^ (rotr x 13) ^^^ (rotr x 22)

def bsig1 (x : Nat) : Nat := (rotr x 6) ^^^ (rotr x 11) ^^^ (rotr x 25)

def ssig0 (x : Nat) : Nat := (rotr x 7) ^^^ (rotr x 18) ^^^ (x >>> 3)

def ssig1 (x : Nat) : Nat := (rotr x 17) ^^^ (rotr x 19) ^^^ (x >>> 10)

def ch (x y z : Nat) : Nat := (x &&& y) ^^^ ((0xffffffff ^^^ x) &&& z)

def maj (x y z : Nat) : Nat := (x &&& y) ^^^ (x &&& z) ^^^ (y &&& z)

/-- The 64 round constants of FIPS 180-4 §4.2.2, in decimal. -/
def K : List Nat :=
  [1116352408, 1899447441, 3049323471, 3921009573, 961987163,
   1508970993, 2453635748, 2870763221, 3624381080, 310598401,
   607225278, 1426881987, 1925078388, 2162078206, 2614888103,
   3248222580, 3835390401, 4022224774, 264347078, 604807628,
   770255983, 1249150122, 1555081692, 1996064986, 2554220882,
   2821834349, 2952996808, 3210313671, 3336571891, 3584528711,
   113926993, 338241895, 666307205, 773529912, 1294757372,
   1396182291, 1695183700, 1986661051, 2177026350, 2456956037,
   2730485921, 2820302411, 3259730800, 3345764771, 3516065817,
   3600352804, 4094571909, 275423344, 430227734, 506948616,
   659060556, 883997877, 958139571, 1322822218, 1537002063,
   1747873779, 1955562222, 2024104815, 2227730452, 2361852424,
   2428436474, 2756734187, 3204031479, 3329325298]

/-- The initial hash state of FIPS 180-4 §5.3.3, in decimal. -/
def H0 : List Nat :=
  [1779033703, 3144134277, 1013904242, 2773480762,
   1359893119, 2600822924, 528734635, 1541459225]

/-- Message padding: append 0x80, zeros to 56 mod 64, then the bit length
as a big-endian u64. -/
def pad (msg : List Nat) : List Nat :=
  msg ++ [0x80] ++ List.replicate ((64 - (msg.length + 9) % 64) % 64) 0 ++
    toBE 8 (8 * msg.length)

/-- Split a padded message into 64-byte blocks (structural recursion on a
fuel argument so that the kernel can evaluate it; every step consumes at
least one byte, so `l.length` fuel suffices). -/
def chunk64Aux : Nat → List Nat → List (List Nat)
  | 0, _ => []
  | _, [] => []
  | fuel + 1, b :: rest => ((b :: rest).take 64) :: chunk64Aux fuel ((b :: rest).drop 64)

def chunk64 (l : List Nat) : List (List Nat) := chunk64Aux l.length l

/-- The 64-entry message schedule of one block. -/
def schedule (block : List Nat) : List Nat :=
  let w16 := (List.range 16).map fun i => beNat ((block.drop (4 * i)).take 4)
  (List.range 48).foldl
    (fun w _ =>
      let i := w.length
      w ++ [w32 (ssig1 (w.getD (i - 2) 0) + w.getD (i - 7) 0 +
                 ssig0 (w.getD (i - 15) 0) + w.getD (i - 16) 0)])
    w16

/-- One compression round. -/
def round (st : List Nat) (kw : Nat × Nat) : List Nat :=
  match st with
  | [a, b, c, d, e, f, g, h] =>
    let t1 := w32 (h + bsig1 e + ch e f g + kw.1 + kw.2)
    let t2 := w32 (bsig0 a + maj a b c)
    [w32 (t1 + t2), a, b, c, w32 (d + t1), e, f, g]
  | st => st

/-- Process one 64-byte block. -/
def compress (h : List Nat) (block : List Nat) : List Nat :=
  let st := ((K.zip (schedule block)).map (fun p => (p.1, p.2))).foldl round h
  (h.zip st).map fun p => w32 (p.1 + p.2)

def sha256 (msg : List Nat) : List Nat :=
  ((chunk64 (pad msg)).foldl compress H0).flatMap (toBE 4)

end Sha256

/-- Double sha256 for calculating checksums. -/
def doubleSha256 (data : List Nat) : List Nat := Sha256.sha256 (Sha256.sha256 data)

/-! ## Framing codec (receiveMessage / sendMessage) -/

/-- The distinct decode failures of `receiveMessage`. `shortHeader` and
`shortPayload` stand for the `io.ReadFull` errors when the stream ends
early; the other three are the explicit checks of the source. -/
inductive RecvErr where
  | shortHeader
  | wrongNetwork
  | payloadTooBig
  | shortPayload
  | invalidChecksum
  deriving Repr, DecidableEq

/-- Read one message from the byte stream of a connection: a 24-byte header
(magic, NUL-padded command, little-endian payload length, 4 checksum bytes)
followed by the payload.  The checks happen in the source's order: magic,
length bound, payload read, checksum. -/
def receiveMessage (stream : List Nat) : Except RecvErr Message :=
  if stream.length < 24 then .error .shortHeader
  else
    let header := stream.take 24
    if header.take 4 ≠ NETWORK_CURRENT then .error .wrongNetwork
    else
      let cmd := asciiString (trimRightZeros ((header.drop 4).take 12))
      let length := leNat ((header.drop 16).take 4)
      if length > MAX_PAYLOAD then .error .payloadTooBig
      else if (stream.drop 24).length < length then .error .shortPayload
      else
        let payload := (stream.drop 24).take length
        if (header.drop 20).take 4 ≠ (doubleSha256 payload).take 4 then
          .error .invalidChecksum
        else .ok { MsgType := cmd, Payload := payload }

/-- The command field: the message type string copied into 12 bytes,
NUL-padded on the right (copy into a zeroed [12]byte array). -/
def padCommand (s : String) : List Nat :=
  ((s.data.map Char.toNat).take 12) ++
    List.replicate (12 - s.length) 0

/-- The bytes `sendMessage` writes for a message: 24-byte header then payload. -/
def sendMessage (msg : Message) : List Nat :=
  NETWORK_CURRENT ++ padCommand msg.MsgType ++ toLE 4 msg.Payload.length ++
    (doubleSha256 msg.Payload).take 4 ++ msg.Payload

/-! ## Per-peer protocol driver (worker.go refreshNode)

The driver's connection is modelled by a `Script`: `recvs` is the finite
list of results its successive `receiveMessage` calls produce (exhaustion
stands for the read deadline firing, i.e. a receive error), and `sends i`
is the result of its `i`-th `sendMessage` call (`none` = success,
`some text` = the error with that text). -/

structure Script where
  sends : Nat → Option String
  recvs : List (Except RecvErr Message)

/-- The fields of the updated `Node` that `refreshNode` fills in:
`ConnOk` models `updated.Conn ≠ nil`. -/
structure RNode where
  ConnOk : Bool
  Version : Option MsgVersion
  Addresses : Option (List NetAddr)
  deriving Repr, DecidableEq

/-- Outcome of the address-enumeration loop; every early `return` of the
source carries the `addresses` accumulator as it stood. -/
inductive LoopOut where
  | clean (num : Nat) (acc : List NetAddr)
  | recvError (acc : List NetAddr)
  | parseError (acc : List NetAddr)
  | sendError (acc : List NetAddr)
  deriving Repr, DecidableEq

/-- The `for num_getaddr < 4` loop of `refreshNode`: read a message; append
any decoded `addr` batch to the accumulator; a batch of fewer than 1000
addresses ends the round, incrementing `num_getaddr` and sending another
`getaddr`; other message types are ignored.  `si` indexes the next send. -/
def enumLoop (sends : Nat → Option String) (num : Nat) (acc : List NetAddr)
    (recvs : List (Except RecvErr Message)) (si : Nat) : LoopOut :=
  if num < 4 then
    match recvs with
    | [] => .recvError acc
    | .error _ :: _ => .recvError acc
    | .ok m :: rest =>
      if m.MsgType = "addr" then
        match parseAddr m with
        | .error _ => .parseError acc
        | .ok new_addresses =>
          if new_addresses.length < 1000 then
            match sends si with
            | some _ => .sendError (acc ++ new_addresses)
            | none => enumLoop sends (num + 1) (acc ++ new_addresses) rest (si + 1)
          else enumLoop sends num (acc ++ new_addresses) rest si
      else enumLoop sends num acc rest si
  else .clean num acc

/-- Connect to the node and retrieve updated information.  Mirrors the Go
control flow: version sent, version received and parsed (recorded at once),
verack demanded, then the enumeration loop starting at `num_getaddr = 1`;
every failure returns what was gathered up to the assignments made so far
(in particular the `addresses` accumulator is only assigned to
`updated.Addresses` after a clean loop exit). -/
def refreshNode (sc : Script) : RNode :=
  -- sendVersion
  match sc.sends 0 with
  | some e =>
    if e = "connection refused" ∨ e = "connection timed out" then
      { ConnOk := false, Version := none, Addresses := none }
    else { ConnOk := true, Version := none, Addresses := none }
  | none =>
  -- receiveVersion = receiveMessage, type check, parseVersion
  match sc.recvs with
  | [] => { ConnOk := true, Version := none, Addresses := none }
  | .error _ :: _ => { ConnOk := true, Version := none, Addresses := none }
  | .ok vm :: rest =>
    if vm.MsgType ≠ "version" then
      { ConnOk := true, Version := none, Addresses := none }
    else
      match parseVersion vm with
      | .error _ => { ConnOk := true, Version := none, Addresses := none }
      | .ok version =>
        -- updated.Version is set before the verack check
        match rest with
        | [] => { ConnOk := true, Version := some version, Addresses := none }
        | .error _ :: _ => { ConnOk := true, Version := some version, Addresses := none }
        | .ok mk :: rest2 =>
          if mk.MsgType ≠ "verack" then
            { ConnOk := true, Version := some version, Addresses := none }
          else
            match sc.sends 1 with  -- sendGetAddr
            | some _ => { ConnOk := true, Version := some version, Addresses := none }
            | none =>
              match enumLoop sc.sends 1 [] rest2 2 with
              | .clean _ acc =>
                { ConnOk := true, Version := some version, Addresses := some acc }
              | _ => { ConnOk := true, Version := some version, Addresses := none }

/-! ## Persistence (db.go)

The two SQLite tables become lists of row structures.  `ip` is the
textual IP (`net.IP.String()`), `port` its decimal rendering
(`strconv.Itoa`); `(ip, port)` is UNIQUE in `nodes`.  Ids are `INTEGER
PRIMARY KEY AUTOINCREMENT`, modelled as max-id-so-far + 1 (no row is ever
deleted).  The SQL `DEFAULT (strftime('%s','now'))` for `created_at` is
identified with the transaction's captured `now`.  `log.Fatal` paths
(store failure) abort the process; they are modelled as returning a
default, and the well-formedness hypotheses of the theorems keep the
executions away from them. -/

/-- Special values for ids. -/
def ID_UNKNOWN : Int := 0

def ID_NOT_IN_DB : Int := -1

structure ip_port where
  ip : String
  port : String
  deriving Repr, DecidableEq

/-- One row of the `nodes` table. -/
structure NodeRow where
  id : Int
  ip : String
  port : String
  protocol : Int
  user_agent : String
  online : Bool
  success : Bool
  next_refresh : Int
  online_at : Int
  success_at : Int
  created_at : Int
  updated_at : Int
  deriving Repr, DecidableEq

/-- One row of the `nodes_known` table. -/
structure KnownRow where
  id : Int
  id_source : Int
  id_known : Int
  created_at : Int
  updated_at : Int
  deriving Repr, DecidableEq

structure DBState where
  nodes : List NodeRow
  known : List KnownRow
  deriving Repr, DecidableEq

/-- Node attributes which are stored in the DB (struct dbNodeInfo). -/
structure dbNodeInfo where
  id : Int := 0
  ip : String := ""
  port : String := ""
  protocol : Int := 0
  user_agent : String := ""
  next_refresh : Int := 0
  online : Bool := false
  online_at : Int := 0
  success : Bool := false
  success_at : Int := 0
  deriving Repr, DecidableEq

/-- Node neighbour partial attributes stored in the DB (struct dbNeighbourInfo). -/
structure dbNeighbourInfo where
  id : Int := 0
  next_refresh : Int := 0
  deriving Repr, DecidableEq

/-- SELECT ... FROM nodes WHERE ip=? AND port=? (first matching row). -/
def findNode (nodes : List NodeRow) (ip port : String) : Option NodeRow :=
  nodes.find? fun r => r.ip = ip ∧ r.port = port

/-- The id AUTOINCREMENT assigns to the next inserted `nodes` row. -/
def nextNodeId (st : DBState) : Int :=
  (st.nodes.foldl (fun m r => max m r.id) 0) + 1

/-- The id assigned to the next inserted `nodes_known` row. -/
def nextKnownId (st : DBState) : Int :=
  (st.known.foldl (fun m r => max m r.id) 0) + 1

/-- dbGetNode: read the crawled node's stored attributes into dbInfo;
on ErrNoRows only the id is set, to ID_NOT_IN_DB. -/
def dbGetNode (st : DBState) (info : dbNodeInfo) : dbNodeInfo :=
  match findNode st.nodes info.ip info.port with
  | some r =>
    { info with
      id := r.id
      protocol := r.protocol
      user_agent := r.user_agent
      online := r.online
      online_at := r.online_at
      success := r.success
      success_at := r.success_at
      next_refresh := r.next_refresh }
  | none => { info with id := ID_NOT_IN_DB }

/-- dbGetNodeId: read only the id; ID_NOT_IN_DB when absent. -/
def dbGetNodeId (st : DBState) (info : dbNodeInfo) : dbNodeInfo :=
  match findNode st.nodes info.ip info.port with
  | some r => { info with id := r.id }
  | none => { info with id := ID_NOT_IN_DB }

/-- The INSERT of dbPutNode (created_at takes the schema default). -/
def insertNodeRow (st : DBState) (now : Int) (info : dbNodeInfo) : DBState :=
  { st with nodes := st.nodes ++
      [{ id := nextNodeId st
         ip := info.ip
         port := info.port
         protocol := info.protocol
         user_agent := info.user_agent
         online := info.online
         success := info.success
         next_refresh := info.next_refresh
         online_at := info.online_at
         success_at := info.success_at
         created_at := now
         updated_at := now }] }

/-- The UPDATE of dbPutNode (all columns but created_at, WHERE id=?). -/
def updateNodeRow (st : DBState) (now : Int) (info : dbNodeInfo) : DBState :=
  { st with nodes := st.nodes.map fun r =>
      if r.id = info.id then
        { r with
          ip := info.ip
          port := info.port
          protocol := info.protocol
          user_agent := info.user_agent
          online := info.online
          success := info.success
          next_refresh := info.next_refresh
          online_at := info.online_at
          success_at := info.success_at
          updated_at := now }
      else r }

/-- dbPutNode: save the node and store its id (re-reading it when it was
previously unknown or freshly inserted). -/
def dbPutNode (st : DBState) (now : Int) (info0 : dbNodeInfo) :
    DBState × dbNodeInfo :=
  let info := if info0.id = ID_UNKNOWN then dbGetNodeId st info0 else info0
  let st1 := if info.id = ID_NOT_IN_DB then insertNodeRow st now info
             else updateNodeRow st now info
  let info1 := if info.id = ID_UNKNOWN ∨ info.id = ID_NOT_IN_DB then
                 dbGetNode st1 info
               else info
  (st1, info1)

/-- dbGetNeighbours: build the neighbour map (an association list keyed by
the canonical (ip, port); Go keys it by `net.JoinHostPort`, whose
`net.SplitHostPort` inverse recovers the pair).  Within `Save` the map
starts empty, so each key holds the id and next_refresh read from the DB,
or `ID_NOT_IN_DB` when absent. -/
def assocUpsert (m : List (ip_port × dbNeighbourInfo)) (k : ip_port)
    (v : dbNeighbourInfo) : List (ip_port × dbNeighbourInfo) :=
  if m.any (fun e => e.1 = k) then
    m.map fun e => if e.1 = k then (k, v) else e
  else m ++ [(k, v)]

def assocGet (m : List (ip_port × dbNeighbourInfo)) (k : ip_port) :
    Option dbNeighbourInfo :=
  (m.find? fun e => e.1 = k).map (·.2)

def dbGetNeighbours (st : DBState) (addresses : Option (List ip_port)) :
    List (ip_port × dbNeighbourInfo) :=
  match addresses with
  | none => []
  | some l =>
    l.foldl
      (fun m a =>
        let neigh : dbNeighbourInfo :=
          match findNode st.nodes a.ip a.port with
          | none => { id := ID_NOT_IN_DB }
          | some r => { id := r.id, next_refresh := r.next_refresh }
        assocUpsert m a neigh)
      []

/-- The update loop of `Save`: each listed address whose map entry's
next_refresh lies before `now` has it set to the crawled peer's fresh
next_refresh. -/
def bumpNeighbours (m : List (ip_port × dbNeighbourInfo))
    (addresses : List ip_port) (now fresh : Int) :
    List (ip_port × dbNeighbourInfo) :=
  addresses.foldl
    (fun m a =>
      let neigh := (assocGet m a).getD {}
      if neigh.next_refresh < now then
        assocUpsert m a { neigh with next_refresh := fresh }
      else m)
    m

/-- One iteration of the dbPutNeighbours loop: resolve the neighbour's id,
INSERT a skeleton row or UPDATE next_refresh/updated_at, then upsert the
knows-relation edge. -/
def putOneNeighbour (now myId : Int) (st : DBState)
    (e : ip_port × dbNeighbourInfo) : DBState :=
  let k := e.1
  let info := e.2
  let info := if info.id = ID_UNKNOWN then
                match findNode st.nodes k.ip k.port with
                | none => { info with id := ID_NOT_IN_DB }
                | some r => { info with id := r.id }
              else info
  let stkid : DBState × Int :=
    if info.id = ID_NOT_IN_DB then
      let st1 : DBState := { st with nodes := st.nodes ++
        [{ id := nextNodeId st
           ip := k.ip
           port := k.port
           protocol := 0
           user_agent := ""
           online := false
           success := false
           next_refresh := info.next_refresh
           online_at := 0
           success_at := 0
           created_at := now
           updated_at := now }] }
      -- retrieve the new id (SELECT id FROM nodes WHERE ip=? AND port=?)
      (st1, (findNode st1.nodes k.ip k.port).elim 0 (·.id))
    else
      ({ st with nodes := st.nodes.map fun r =>
           if r.id = info.id then
             { r with next_refresh := info.next_refresh, updated_at := now }
           else r }, info.id)
  let st1 := stkid.1
  let kid := stkid.2
  match st1.known.find? fun r => r.id_source = myId ∧ r.id_known = kid with
  | none =>
    { st1 with known := st1.known ++
        [{ id := nextKnownId st1
           id_source := myId
           id_known := kid
           created_at := now
           updated_at := now }] }
  | some kr =>
    { st1 with known := st1.known.map fun r =>
        if r.id = kr.id then { r with updated_at := now } else r }

/-- dbPutNeighbours: write every neighbour map entry and its edge
(no-op on an empty map). -/
def dbPutNeighbours (st : DBState) (now : Int) (info : dbNodeInfo)
    (entries : List (ip_port × dbNeighbourInfo)) : DBState :=
  if entries.length = 0 then st
  else
    let myId := if info.id = ID_UNKNOWN ∨ info.id = ID_NOT_IN_DB then
                  (dbGetNodeId st info).id
                else info.id
    entries.foldl (putOneNeighbour now myId) st

/-- The crawl result as `nodeDB.Save` consumes it: the crawled endpoint in
canonical textual form, whether TCP connect succeeded (`Conn ≠ nil`), the
decoded version if any, and the learned neighbour endpoints (`none`
models the nil slice of a run that never finished enumeration). -/
structure SavedNode where
  ip : String
  port : String
  ConnOk : Bool
  Version : Option MsgVersion
  Addresses : Option (List ip_port)
  deriving Repr, DecidableEq

/-- The dbInfo `Save` derives for the crawled peer before writing it: the
stored attributes read by dbGetNode, overwritten with the online/next_refresh
columns from the connect outcome and the success/protocol/user_agent columns
from the handshake outcome. -/
def saveInfo (st : DBState) (now : Int) (nd : SavedNode) : dbNodeInfo :=
  let info := dbGetNode st { ip := nd.ip, port := nd.port }
  let info := if ¬ nd.ConnOk then
                { info with online := false, next_refresh := 0 }
              else
                { info with
                  online := true
                  online_at := now
                  next_refresh := now + NODE_REFRESH_INTERVAL * 3600 }
  match nd.Version with
  | some v =>
    { info with
      protocol := (v.Protocol : Int)
      user_agent := v.UserAgent
      success := true
      success_at := now }
  | none => { info with success := false }

/-- nodeDB.Save: the writer transaction.  Reads the stored attributes,
derives the new column values from the crawl outcome, upserts the crawled
peer, then reconciles the listed neighbours and their edges. -/
def Save (st : DBState) (now : Int) (nd : SavedNode) : DBState :=
  let info := saveInfo st now nd
  let put := dbPutNode st now info
  let st1 := put.1
  let info := put.2
  let entries := dbGetNeighbours st1 nd.Addresses
  let entries := bumpNeighbours entries (nd.Addresses.getD []) now info.next_refresh
  dbPutNeighbours st1 now info entries

/-! ## Address source (worker.go getNodes, db.go addressesToUpdate) -/

/-- The rows selected by addressesToUpdate's query:
WHERE port!=0 AND next_refresh < now ORDER BY next_refresh LIMIT 5000. -/
def selectRows (st : DBState) (now : Int) : List NodeRow :=
  ((st.nodes.filter fun r => r.port ≠ "0" ∧ r.next_refresh < now).insertionSort
    (fun a b => a.next_refresh ≤ b.next_refresh)).take ADDRESSES_NUM

/-- Retrieves addresses which need to be updated. -/
def addressesToUpdate (st : DBState) (now : Int) : List ip_port :=
  (selectRows st now).map fun r => { ip := r.ip, port := r.port }

/-- One iteration of the getNodes loop: only fetch new addresses when the
queue holds fewer than ADDRESSES_NUM/2 endpoints; the fetched endpoints are
emitted to the queue. -/
def getNodesIter (queueLen : Nat) (st : DBState) (now : Int) : List ip_port :=
  if queueLen < ADDRESSES_NUM / 2 then addressesToUpdate st now else []

/-! ## Auxiliary predicates and values used by the theorems -/

/-- Database well-formedness: `(ip, port)` is UNIQUE in `nodes`, ids are
pairwise distinct, and ids are at least 1 (the PRIMARY KEY autoincrements
from 1; `ID_UNKNOWN = 0` and `ID_NOT_IN_DB = -1` are in-band sentinels). -/
def WF (st : DBState) : Prop :=
  st.nodes.Pairwise (fun a b => ¬(a.ip = b.ip ∧ a.port = b.port) ∧ a.id ≠ b.id) ∧
  ∀ r ∈ st.nodes, 1 ≤ r.id

instance (st : DBState) : Decidable (WF st) := by
  unfold WF; infer_instance

/-- The neighbour attributes `dbGetNeighbours` reads for one endpoint. -/
def neighOf (st : DBState) (k : ip_port) : dbNeighbourInfo :=
  match findNode st.nodes k.ip k.port with
  | none => { id := ID_NOT_IN_DB }
  | some r => { id := r.id, next_refresh := r.next_refresh }

/-- The per-entry effect of the bump loop in `Save`. -/
def bumpOne (now fresh : Int) (v : dbNeighbourInfo) : dbNeighbourInfo :=
  if v.next_refresh < now then { v with next_refresh := fresh } else v

/-- A neighbour map entry's id field agrees with the table (as it does when
`dbGetNeighbours` just built the map inside the same transaction). -/
def entryConsistent (st : DBState) (e : ip_port × dbNeighbourInfo) : Prop :=
  match findNode st.nodes e.1.ip e.1.port with
  | none => e.2.id = ID_NOT_IN_DB
  | some r => e.2.id = r.id

/-- Stored next_refresh of an endpoint, zero when the row is absent. -/
def storedNR (st : DBState) (ip port : String) : Int :=
  ((findNode st.nodes ip port).map (·.next_refresh)).getD 0

/-! Concrete inputs for witnesses and counterexamples. -/

/-- An 85-byte version payload: protocol 70001, all other fields zero,
empty user agent. -/
def versionPayload : List Nat :=
  toLE 4 70001 ++ List.replicate 76 0 ++ [0] ++ toLE 4 0

def versionMsgW : Message := { MsgType := "version", Payload := versionPayload }

def verackMsgW : Message := { MsgType := "verack", Payload := [] }

/-- A 30-byte net_addr-with-time: services 1, the IPv4-mapped address
10.0.0.1, port 8333. -/
def netAddrBytesW : List Nat :=
  toLE 4 0 ++ toLE 8 1 ++ [0, 0, 0, 0, 0, 0, 0, 0, 0, 0, 0xff, 0xff, 10, 0, 0, 1] ++
    [0x20, 0x8d]

/-- An addr payload listing that single address. -/
def addrMsgW : Message := { MsgType := "addr", Payload := [1] ++ netAddrBytesW }

/-- The decoded form of `netAddrBytesW`. -/
def netAddrW : NetAddr :=
  { Timestamp := 0, Services := 1
    IP := [0, 0, 0, 0, 0, 0, 0, 0, 0, 0, 0xff, 0xff, 10, 0, 0, 1], Port := 8333 }

/-- The decoded form of `versionPayload`. -/
def versionW : MsgVersion :=
  { Protocol := 70001, Services := 0, Timestamp := 0
    AddrLocal := { Timestamp := 0, Services := 0, IP := List.replicate 16 0, Port := 0 }
    AddrRemote := { Timestamp := 0, Services := 0, IP := List.replicate 16 0, Port := 0 }
    Nonce := 0, UserAgent := "", StartHeight := 0, Relay := false }

/-- A script whose peer answers version, then drops the connection: the
verack never arrives (second receive errors), handshake incomplete. -/
def scNoVerack : Script :=
  { sends := fun _ => none
    recvs := [.ok versionMsgW, .error .shortHeader] }

/-- A script that completes the handshake, delivers one addr batch and
then hits a receive error inside the enumeration loop. -/
def scAddrThenError : Script :=
  { sends := fun _ => none
    recvs := [.ok versionMsgW, .ok verackMsgW, .ok addrMsgW, .error .shortHeader] }

def emptyDB : DBState := { nodes := [], known := [] }

/-- The crawl result of `scNoVerack` against peer 1.2.3.4:8333, as the
writer consumes it (`Addresses` is nil because the loop never ran). -/
def ndNoVerack : SavedNode :=
  { ip := "1.2.3.4", port := "8333", ConnOk := true
    Version := (refreshNode scNoVerack).Version
    Addresses := none }

/-- An online, handshaked crawl result listing one neighbour. -/
def ndOneNeighbour : SavedNode :=
  { ip := "1.2.3.4", port := "8333", ConnOk := true, Version := some versionW
    Addresses := some [{ ip := "10.0.0.1", port := "8333" }] }

/-- A one-row store with an eligible endpoint for the address source. -/
def stEligible : DBState :=
  { nodes := [{ id := 1, ip := "9.9.9.9", port := "8333", protocol := 0
                user_agent := "", online := false, success := false
                next_refresh := 50, online_at := 0, success_at := 0
                created_at := 0, updated_at := 0 }]
    known := [] }

/-! # Theorems -/

/-- C6: decoding the canonical varint encoding of each boundary value
returns the value itself; the byte count is as specified for the 1-, 3-
and 5-byte forms, but the `0xFF + u64` form (9 bytes on the wire) is
reported as 5 bytes — `varInt`'s own documentation promises the number of
bytes in the representation, so this is a bug in the code's `0xff` arm. -/
theorem varInt_boundary_roundtrip :
    varInt (encode_varint 0) = .ok (0, 1) ∧
    varInt (encode_varint 0xFC) = .ok (0xFC, 1) ∧
    varInt (encode_varint 0xFD) = .ok (0xFD, 3) ∧
    varInt (encode_varint 0xFFFF) = .ok (0xFFFF, 3) ∧
    varInt (encode_varint 0x10000) = .ok (0x10000, 5) ∧
    varInt (encode_varint 0xFFFFFFFF) = .ok (0xFFFFFFFF, 5) ∧
    (encode_varint 0x100000000).length = 9 ∧
    varInt (encode_varint 0x100000000) = .ok (0x100000000, 5) ∧
    (encode_varint (2 ^ 64 - 1)).length = 9 ∧
    varInt (encode_varint (2 ^ 64 - 1)) = .ok (2 ^ 64 - 1, 5) := by
  decide

/-- C9 (counterexample): the network magic in use is not the test-net-3
constant 0x0B110907; that constant exists in the source but is not
selected. -/
theorem NETWORK_CURRENT_ne_testnet3 :
    NETWORK_CURRENT ≠ NETWORK_TESTNET3 ∧
    NETWORK_TESTNET3 = [0x0B, 0x11, 0x09, 0x07] := by
  decide

/-- C9 (amended): the magic prepended to every sent frame is
NETWORK_CURRENT, which equals the main-net constant 0xF9BEB4D9. -/
theorem NETWORK_CURRENT_is_mainnet :
    NETWORK_CURRENT = NETWORK_MAIN ∧
    NETWORK_MAIN = [0xF9, 0xBE, 0xB4, 0xD9] ∧
    ∀ msg : Message, (sendMessage msg).take 4 = NETWORK_CURRENT := by
  refine ⟨rfl, rfl, fun msg => rfl⟩

/-- C7: for a stream holding a full header, decoding rejects a wrong magic,
an advertised payload length above MAX_PAYLOAD, and a checksum mismatch,
each as its own error (wrong magic and checksum mismatch are distinct
constructors), and returns the message unchanged when all three checks
pass. -/
theorem receiveMessage_checks (stream : List Nat) (h24 : 24 ≤ stream.length) :
    (stream.take 4 ≠ NETWORK_CURRENT →
      receiveMessage stream = .error .wrongNetwork) ∧
    (stream.take 4 = NETWORK_CURRENT →
      MAX_PAYLOAD < leNat (((stream.take 24).drop 16).take 4) →
      receiveMessage stream = .error .payloadTooBig) ∧
    (stream.take 4 = NETWORK_CURRENT →
      leNat (((stream.take 24).drop 16).take 4) ≤ MAX_PAYLOAD →
      leNat (((stream.take 24).drop 16).take 4) ≤ (stream.drop 24).length →
      ((stream.take 24).drop 20).take 4 ≠
        (doubleSha256 ((stream.drop 24).take
          (leNat (((stream.take 24).drop 16).take 4)))).take 4 →
      receiveMessage stream = .error .invalidChecksum) ∧
    (stream.take 4 = NETWORK_CURRENT →
      leNat (((stream.take 24).drop 16).take 4) ≤ MAX_PAYLOAD →
      leNat (((stream.take 24).drop 16).take 4) ≤ (stream.drop 24).length →
      ((stream.take 24).drop 20).take 4 =
        (doubleSha256 ((stream.drop 24).take
          (leNat (((stream.take 24).drop 16).take 4)))).take 4 →
      receiveMessage stream =
        .ok { MsgType := asciiString (trimRightZeros (((stream.take 24).drop 4).take 12))
              Payload := (stream.drop 24).take
                (leNat (((stream.take 24).drop 16).take 4)) }) ∧
    RecvErr.wrongNetwork ≠ RecvErr.invalidChecksum := by
  have hlen : ¬ stream.length < 24 := by omega
  have htake : (stream.take 24).take 4 = stream.take 4 := by
    rw [List.take_take]; norm_num
  refine ⟨?_, ?_, ?_, ?_, by decide⟩
  · intro hm
    rw [receiveMessage, if_neg hlen, if_pos (by rw [htake]; exact hm)]
  · intro hm hbig
    rw [receiveMessage, if_neg hlen, if_neg (by rw [htake]; simp [hm]),
      if_pos hbig]
  · intro hm hsmall havail hck
    rw [receiveMessage, if_neg hlen, if_neg (by rw [htake]; simp [hm]),
      if_neg (by omega), if_neg (by omega), if_pos hck]
  · intro hm hsmall havail hck
    rw [receiveMessage, if_neg hlen, if_neg (by rw [htake]; simp [hm]),
      if_neg (by omega), if_neg (by omega), if_neg (by simp [hck])]

set_option maxRecDepth 100000 in
/-- C7 (witness): a 24-zero-byte frame is rejected as wrong network, and a
correct verack frame (empty payload, checksum 5df6e0e2) decodes cleanly. -/
theorem receiveMessage_checks_witness :
    receiveMessage (List.replicate 24 0) = .error .wrongNetwork ∧
    receiveMessage
        ([0xF9, 0xBE, 0xB4, 0xD9, 118, 101, 114, 97, 99, 107, 0, 0, 0, 0, 0, 0,
          0, 0, 0, 0, 0x5d, 0xf6, 0xe0, 0xe2]) =
      .ok { MsgType := "verack", Payload := [] } := by
  constructor
  · exact (receiveMessage_checks (List.replicate 24 0) (by decide)).1 (by decide)
  · exact (receiveMessage_checks _ (by decide)).2.2.2.1 (by decide) (by decide)
      (by decide) (by decide)

instance : IsTotal NodeRow (fun a b => a.next_refresh ≤ b.next_refresh) :=
  ⟨fun a b => le_total a.next_refresh b.next_refresh⟩

instance : IsTrans NodeRow (fun a b => a.next_refresh ≤ b.next_refresh) :=
  ⟨fun _ _ _ h h2 => le_trans h h2⟩

/-- C8 (counterexample): with the queue at 3000 entries — well under half
of its 10000 capacity — the source does not fetch, although an eligible
endpoint is waiting; the fetch threshold is ADDRESSES_NUM/2 = 2500 (half
of one fetch batch, a quarter of the queue), not half the queue. -/
theorem getNodes_threshold_not_half_queue :
    3000 < ADDRESSES_QUEUE_CAP / 2 ∧
    addressesToUpdate stEligible 100 ≠ [] ∧
    getNodesIter 3000 stEligible 100 = [] := by
  decide

/-- C8 (amended): the source fetches exactly when the queue holds fewer
than ADDRESSES_NUM/2 = 2500 endpoints (a quarter of the 2×5000 queue
capacity), otherwise it emits nothing for that iteration; a fetch reads at
most ADDRESSES_NUM endpoints, each from a stored row with port ≠ 0 and
next_refresh < now, and the selected rows come out ordered by ascending
next_refresh. -/
theorem getNodes_backpressure_and_query (queueLen : Nat) (st : DBState) (now : Int) :
    (ADDRESSES_NUM / 2 ≤ queueLen → getNodesIter queueLen st now = []) ∧
    (queueLen < ADDRESSES_NUM / 2 →
      getNodesIter queueLen st now = addressesToUpdate st now) ∧
    (addressesToUpdate st now).length ≤ ADDRESSES_NUM ∧
    (∀ a ∈ addressesToUpdate st now, ∃ r ∈ st.nodes,
      r.ip = a.ip ∧ r.port = a.port ∧ r.port ≠ "0" ∧ r.next_refresh < now) ∧
    List.Sorted (fun x y : NodeRow => x.next_refresh ≤ y.next_refresh)
      (selectRows st now) ∧
    4 * (ADDRESSES_NUM / 2) = ADDRESSES_QUEUE_CAP := by
  refine ⟨?_, ?_, ?_, ?_, ?_, by decide⟩
  · intro h
    rw [getNodesIter, if_neg (by omega)]
  · intro h
    rw [getNodesIter, if_pos h]
  · simp only [addressesToUpdate, selectRows, List.length_map, List.length_take]
    omega
  · intro a ha
    simp only [addressesToUpdate, List.mem_map] at ha
    obtain ⟨r, hr, rfl⟩ := ha
    have hr2 : r ∈ st.nodes.filter (fun r => decide (r.port ≠ "0" ∧ r.next_refresh < now)) := by
      refine (List.perm_insertionSort
        (fun a b : NodeRow => a.next_refresh ≤ b.next_refresh) _).subset ?_
      exact List.take_subset _ _ hr
    have hm := List.mem_filter.mp hr2
    refine ⟨r, hm.1, rfl, rfl, ?_⟩
    simpa using hm.2
  · exact List.Pairwise.sublist (List.take_sublist _ _) (List.sorted_insertionSort _ _)

/-- C8 (witness): on a one-row store with an eligible endpoint, an empty
queue triggers a fetch and a queue at the 2500 threshold does not. -/
theorem getNodes_backpressure_witness :
    getNodesIter 0 stEligible 100 = addressesToUpdate stEligible 100 ∧
    getNodesIter 2500 stEligible 100 = [] :=
  ⟨(getNodes_backpressure_and_query 0 stEligible 100).2.1 (by decide),
   (getNodes_backpressure_and_query 2500 stEligible 100).1 (by decide)⟩

/-- Helper: a script that passes the handshake reaches the enumeration
loop, which starts at `num_getaddr = 1`, and only a clean loop exit
assigns the accumulator to `updated.Addresses`. -/
theorem refreshNode_enum (sends : Nat → Option String) (vm va : Message)
    (rest : List (Except RecvErr Message)) (v : MsgVersion)
    (h0 : sends 0 = none) (h1 : sends 1 = none)
    (hvm : vm.MsgType = "version") (hv : parseVersion vm = .ok v)
    (hva : va.MsgType = "verack") :
    refreshNode { sends := sends, recvs := .ok vm :: .ok va :: rest } =
      match enumLoop sends 1 [] rest 2 with
      | .clean _ acc => { ConnOk := true, Version := some v, Addresses := some acc }
      | _ => { ConnOk := true, Version := some v, Addresses := none } := by
  simp only [refreshNode, h0, h1, hvm, hv, hva]
  simp

/-- Helper: starting at or below 4, the enumeration loop can only exit
cleanly with the round counter equal to 4. -/
theorem enumLoop_clean_four (sends : Nat → Option String) :
    ∀ (recvs : List (Except RecvErr Message)) (num : Nat) (acc : List NetAddr)
      (si k : Nat) (acc2 : List NetAddr), num ≤ 4 →
      enumLoop sends num acc recvs si = .clean k acc2 → k = 4 := by
  intro recvs
  induction recvs with
  | nil =>
    intro num acc si k acc2 hle h
    rw [enumLoop.eq_def] at h
    by_cases h4 : num < 4
    · rw [if_pos h4] at h; exact absurd h (by simp)
    · rw [if_neg h4] at h; injection h with h1 h2; omega
  | cons ev rest ih =>
    intro num acc si k acc2 hle h
    rw [enumLoop.eq_def] at h
    by_cases h4 : num < 4
    · rw [if_pos h4] at h
      match ev with
      | .error e => exact absurd h (by simp)
      | .ok m =>
        dsimp only at h
        by_cases ha : m.MsgType = "addr"
        · rw [if_pos ha] at h
          cases hp : parseAddr m with
          | error e => rw [hp] at h; exact absurd h (by simp)
          | ok news =>
            rw [hp] at h
            dsimp only at h
            by_cases hshort : news.length < 1000
            · rw [if_pos hshort] at h
              cases hs : sends si with
              | some e => rw [hs] at h; exact absurd h (by simp)
              | none =>
                rw [hs] at h
                dsimp only at h
                exact ih (num + 1) _ _ _ _ (by omega) h
            · rw [if_neg hshort] at h; exact ih num _ _ _ _ hle h
        · rw [if_neg ha] at h; exact ih num _ _ _ _ hle h
    · rw [if_neg h4] at h; injection h with h1 h2; omega

/-- C5: the enumeration loop's round counter starts at 1 (refreshNode
enters the loop with `num_getaddr = 1` after a successful handshake); it
is advanced only by an addr batch of fewer than 1000 addresses, and each
such advance immediately consumes one more `getaddr` send; a batch of
1000 or more addresses, and any non-addr message, leave the counter
unchanged; the loop exits cleanly exactly when the counter reaches 4. -/
theorem enumLoop_round_counter :
    (∀ (sends : Nat → Option String) acc recvs si,
      enumLoop sends 4 acc recvs si = .clean 4 acc) ∧
    (∀ (sends : Nat → Option String) recvs num acc si k acc2, num ≤ 4 →
      enumLoop sends num acc recvs si = .clean k acc2 → k = 4) ∧
    (∀ (sends : Nat → Option String) num acc (m : Message) rest si,
      num < 4 → m.MsgType ≠ "addr" →
      enumLoop sends num acc (.ok m :: rest) si = enumLoop sends num acc rest si) ∧
    (∀ (sends : Nat → Option String) num acc (m : Message) rest si new_addresses,
      num < 4 → m.MsgType = "addr" → parseAddr m = .ok new_addresses →
      1000 ≤ new_addresses.length →
      enumLoop sends num acc (.ok m :: rest) si =
        enumLoop sends num (acc ++ new_addresses) rest si) ∧
    (∀ (sends : Nat → Option String) num acc (m : Message) rest si new_addresses,
      num < 4 → m.MsgType = "addr" → parseAddr m = .ok new_addresses →
      new_addresses.length < 1000 → sends si = none →
      enumLoop sends num acc (.ok m :: rest) si =
        enumLoop sends (num + 1) (acc ++ new_addresses) rest (si + 1)) ∧
    (∀ (sends : Nat → Option String) vm va rest v,
      sends 0 = none → sends 1 = none →
      vm.MsgType = "version" → parseVersion vm = .ok v → va.MsgType = "verack" →
      refreshNode { sends := sends, recvs := .ok vm :: .ok va :: rest } =
        match enumLoop sends 1 [] rest 2 with
        | .clean _ acc => { ConnOk := true, Version := some v, Addresses := some acc }
        | _ => { ConnOk := true, Version := some v, Addresses := none }) := by
  refine ⟨?_, fun sends => enumLoop_clean_four sends, ?_, ?_, ?_,
    fun sends vm va rest v h0 h1 hvm hv hva =>
      refreshNode_enum sends vm va rest v h0 h1 hvm hv hva⟩
  · intro sends acc recvs si
    rw [enumLoop.eq_def]; simp
  · intro sends num acc m rest si h4 ha
    rw [enumLoop, if_pos h4]
    simp [ha]
  · intro sends num acc m rest si new_addresses h4 ha hp hlong
    rw [enumLoop, if_pos h4]
    simp [ha, hp, Nat.not_lt.mpr hlong]
  · intro sends num acc m rest si new_addresses h4 ha hp hshort hs
    rw [enumLoop, if_pos h4]
    simp [ha, hp, hshort, hs]

/-- C5 (witness): a short (one-address) batch advances the counter from 1
to 2 and consumes the next getaddr send; a counter of 4 exits cleanly. -/
theorem enumLoop_round_counter_witness :
    enumLoop (fun _ => none) 1 [] [.ok addrMsgW] 2 =
      enumLoop (fun _ => none) 2 [netAddrW] [] 3 ∧
    enumLoop (fun _ => none) 4 [] [] 0 = .clean 4 [] := by
  constructor
  · exact enumLoop_round_counter.2.2.2.2.1 (fun _ => none) 1 [] addrMsgW [] 2
      [netAddrW] (by decide) (by decide) (by decide) (by decide) rfl
  · exact enumLoop_round_counter.1 (fun _ => none) [] [] 0

/-- C4 (counterexample): the peer completes the handshake, answers one
addr batch that decodes to one address, then the connection errors; the
address was collected in the loop's accumulator, but the forwarded Node
carries no addresses at all (`Addresses = nil`). -/
theorem recvError_discards_collected_cex :
    parseAddr addrMsgW = .ok [netAddrW] ∧
    enumLoop (fun _ => none) 1 [] [.ok addrMsgW, .error .shortHeader] 2 =
      .recvError [netAddrW] ∧
    refreshNode scAddrThenError =
      { ConnOk := true, Version := some versionW, Addresses := none } := by
  decide

/-- C4 (amended): a receive error inside the enumeration loop makes the
driver return with `Addresses = nil`: the batches decoded before the
error are discarded, not forwarded (only a clean exit at four rounds
assigns the accumulator to the Node). -/
theorem recvError_discards_collected (sends : Nat → Option String)
    (vm va : Message) (rest : List (Except RecvErr Message)) (v : MsgVersion)
    (acc : List NetAddr)
    (h0 : sends 0 = none) (h1 : sends 1 = none)
    (hvm : vm.MsgType = "version") (hv : parseVersion vm = .ok v)
    (hva : va.MsgType = "verack")
    (hloop : enumLoop sends 1 [] rest 2 = .recvError acc) :
    refreshNode { sends := sends, recvs := .ok vm :: .ok va :: rest } =
      { ConnOk := true, Version := some v, Addresses := none } := by
  rw [refreshNode_enum sends vm va rest v h0 h1 hvm hv hva, hloop]

/-- C4 (amended, witness): instantiated on the concrete
addr-batch-then-error script. -/
theorem recvError_discards_collected_witness :
    refreshNode scAddrThenError =
      { ConnOk := true, Version := some versionW, Addresses := none } :=
  recvError_discards_collected (fun _ => none) versionMsgW verackMsgW
    [.ok addrMsgW, .error .shortHeader] versionW [netAddrW]
    rfl rfl rfl (by decide) rfl (by decide)

/-! ## Store lemmas -/

theorem le_foldl_max_id (l : List NodeRow) : ∀ m : Int, m ≤ l.foldl (fun m r => max m r.id) m := by
  induction l with
  | nil => intro m; simp
  | cons a l ih =>
    intro m
    calc m ≤ max m a.id := le_max_left _ _
    _ ≤ _ := ih (max m a.id)

theorem id_le_foldl_max (l : List NodeRow) :
    ∀ (m : Int) (r : NodeRow), r ∈ l → r.id ≤ l.foldl (fun m r => max m r.id) m := by
  induction l with
  | nil => intro m r hr; simp at hr
  | cons a l ih =>
    intro m r hr
    rcases List.mem_cons.mp hr with rfl | hr
    · calc r.id ≤ max m r.id := le_max_right _ _
      _ ≤ _ := le_foldl_max_id l _
    · exact ih _ r hr

theorem findNode_prop (nodes : List NodeRow) (ip port : String) (r : NodeRow)
    (h : findNode nodes ip port = some r) :
    r ∈ nodes ∧ r.ip = ip ∧ r.port = port := by
  refine ⟨List.mem_of_find?_eq_some h, ?_⟩
  have := List.find?_some h
  simpa using this

theorem findNode_none (nodes : List NodeRow) (ip port : String)
    (h : findNode nodes ip port = none) :
    ∀ r ∈ nodes, ¬(r.ip = ip ∧ r.port = port) := by
  intro r hr
  have := List.find?_eq_none.mp h r hr
  simpa using this

theorem WF_pair {st : DBState} (h : WF st) {a b : NodeRow}
    (ha : a ∈ st.nodes) (hb : b ∈ st.nodes) (hne : a ≠ b) :
    ¬(a.ip = b.ip ∧ a.port = b.port) ∧ a.id ≠ b.id := by
  refine List.Pairwise.forall ?_ h.1 ha hb hne
  intro x y hxy
  exact ⟨fun hc => hxy.1 ⟨hc.1.symm, hc.2.symm⟩, fun hc => hxy.2 hc.symm⟩

theorem WF_same_id {st : DBState} (h : WF st) {a b : NodeRow}
    (ha : a ∈ st.nodes) (hb : b ∈ st.nodes) (hid : a.id = b.id) : a = b := by
  by_contra hne
  exact (WF_pair h ha hb hne).2 hid

theorem findNode_map_mem (nodes : List NodeRow) (g : NodeRow → NodeRow)
    (hg : ∀ r ∈ nodes, (g r).ip = r.ip ∧ (g r).port = r.port) (ip port : String) :
    findNode (nodes.map g) ip port = (findNode nodes ip port).map g := by
  induction nodes with
  | nil => rfl
  | cons a l ih =>
    have hga := hg a (by simp)
    by_cases hm : a.ip = ip ∧ a.port = port
    · rw [findNode, List.map_cons, List.find?_cons_of_pos, findNode,
        List.find?_cons_of_pos] <;> simp [hga.1, hga.2, hm.1, hm.2]
    · rw [findNode, List.map_cons, List.find?_cons_of_neg, findNode,
        List.find?_cons_of_neg]
      · exact ih fun r hr => hg r (by simp [hr])
      · simpa using hm
      · simpa [hga.1, hga.2] using hm

theorem findNode_append (nodes extra : List NodeRow) (ip port : String) :
    findNode (nodes ++ extra) ip port =
      (findNode nodes ip port).or (findNode extra ip port) := by
  simp [findNode, List.find?_append]

/-- Frame and self lemmas for an update by id of a row found by endpoint. -/
theorem findNode_update_self {st : DBState} (h : WF st)
    {ip port : String} {r0 : NodeRow} (hfind : findNode st.nodes ip port = some r0)
    (f : NodeRow → NodeRow)
    (hf0 : (f r0).ip = r0.ip ∧ (f r0).port = r0.port) :
    findNode (st.nodes.map fun r => if r.id = r0.id then f r else r) ip port =
      some (f r0) := by
  obtain ⟨hmem, hip, hport⟩ := findNode_prop _ _ _ _ hfind
  have hg : ∀ r ∈ st.nodes,
      ((fun r => if r.id = r0.id then f r else r) r).ip = r.ip ∧
      ((fun r => if r.id = r0.id then f r else r) r).port = r.port := by
    intro r hr
    by_cases hid : r.id = r0.id
    · have : r = r0 := WF_same_id h hr hmem hid
      subst this
      simp [hid, hf0.1, hf0.2]
    · simp [hid]
  rw [findNode_map_mem _ _ hg, hfind]
  simp

theorem findNode_update_frame {st : DBState} (h : WF st)
    {ip port : String} {r0 : NodeRow} (hfind : findNode st.nodes ip port = some r0)
    (f : NodeRow → NodeRow)
    (hf0 : (f r0).ip = r0.ip ∧ (f r0).port = r0.port)
    (ip2 port2 : String) (hne : ¬(ip2 = ip ∧ port2 = port)) :
    findNode (st.nodes.map fun r => if r.id = r0.id then f r else r) ip2 port2 =
      findNode st.nodes ip2 port2 := by
  obtain ⟨hmem, hip, hport⟩ := findNode_prop _ _ _ _ hfind
  have hg : ∀ r ∈ st.nodes,
      ((fun r => if r.id = r0.id then f r else r) r).ip = r.ip ∧
      ((fun r => if r.id = r0.id then f r else r) r).port = r.port := by
    intro r hr
    by_cases hid : r.id = r0.id
    · have : r = r0 := WF_same_id h hr hmem hid
      subst this
      simp [hid, hf0.1, hf0.2]
    · simp [hid]
  rw [findNode_map_mem _ _ hg]
  cases hfind2 : findNode st.nodes ip2 port2 with
  | none => rfl
  | some r2 =>
    obtain ⟨hmem2, hip2, hport2⟩ := findNode_prop _ _ _ _ hfind2
    have hne2 : r2 ≠ r0 := by
      intro hc; subst hc
      exact hne ⟨by rw [← hip2, hip], by rw [← hport2, hport]⟩
    have : r2.id ≠ r0.id := (WF_pair h hmem2 hmem hne2).2
    simp [this]

theorem WF_update {st : DBState} (h : WF st)
    {ip port : String} {r0 : NodeRow} (hfind : findNode st.nodes ip port = some r0)
    (f : NodeRow → NodeRow)
    (hf0 : (f r0).ip = r0.ip ∧ (f r0).port = r0.port ∧ (f r0).id = r0.id) :
    WF { st with
      nodes := st.nodes.map fun r => if r.id = r0.id then f r else r } := by
  obtain ⟨hmem, hip, hport⟩ := findNode_prop _ _ _ _ hfind
  have hg : ∀ r ∈ st.nodes,
      ((fun r => if r.id = r0.id then f r else r) r).ip = r.ip ∧
      ((fun r => if r.id = r0.id then f r else r) r).port = r.port ∧
      ((fun r => if r.id = r0.id then f r else r) r).id = r.id := by
    intro r hr
    by_cases hid : r.id = r0.id
    · have : r = r0 := WF_same_id h hr hmem hid
      subst this
      simp [hid, hf0.1, hf0.2.1, hf0.2.2]
    · simp [hid]
  constructor
  · rw [List.pairwise_map]
    refine h.1.imp_of_mem ?_
    intro a b ha hb hab
    have hga := hg a ha
    have hgb := hg b hb
    rw [hga.1, hga.2.1, hga.2.2, hgb.1, hgb.2.1, hgb.2.2]
    exact hab
  · intro r hr
    obtain ⟨r1, hr1, rfl⟩ := List.mem_map.mp hr
    have := (hg r1 hr1).2.2
    rw [this]
    exact h.2 r1 hr1

theorem WF_insert {st : DBState} (h : WF st) {row : NodeRow}
    (hnone : findNode st.nodes row.ip row.port = none)
    (hid : row.id = nextNodeId st) :
    WF { st with nodes := st.nodes ++ [row] } := by
  constructor
  · rw [List.pairwise_append]
    refine ⟨h.1, by simp, ?_⟩
    intro a ha b hb
    simp only [List.mem_singleton] at hb
    subst hb
    constructor
    · exact findNode_none _ _ _ hnone a ha
    · have h1 : a.id ≤ st.nodes.foldl (fun m r => max m r.id) 0 :=
        id_le_foldl_max _ _ _ ha
      rw [hid]
      unfold nextNodeId
      omega
  · intro r hr
    rcases List.mem_append.mp hr with hr | hr
    · exact h.2 r hr
    · simp only [List.mem_singleton] at hr
      subst hr
      have h0 : (0 : Int) ≤ st.nodes.foldl (fun m r => max m r.id) 0 :=
        le_foldl_max_id _ _
      rw [hid]
      unfold nextNodeId
      omega

/-- The id consistency that holds for dbInfo after dbGetNode. -/
def idConsistent (st : DBState) (ip port : String) (i : Int) : Prop :=
  match findNode st.nodes ip port with
  | none => i = ID_NOT_IN_DB
  | some r0 => i = r0.id

/-- Everything the writer needs of dbPutNode: the crawled endpoint's row
carries exactly the derived column values with `updated_at = now`; no
other endpoint's lookup changes; well-formedness and the knows-relation
are preserved; the returned dbInfo keeps the id and next_refresh. -/
theorem findNode_singleton_none (row : NodeRow) (ip2 port2 : String)
    (hne : ¬(row.ip = ip2 ∧ row.port = port2)) :
    findNode [row] ip2 port2 = none := by
  simp only [findNode, List.find?_cons_of_neg, List.find?_nil]
  simpa using hne

theorem dbPutNode_spec (st : DBState) (now : Int) (info : dbNodeInfo)
    (h : WF st) (hic : idConsistent st info.ip info.port info.id) :
    (∃ row, findNode (dbPutNode st now info).1.nodes info.ip info.port = some row ∧
      row.ip = info.ip ∧ row.port = info.port ∧
      row.protocol = info.protocol ∧ row.user_agent = info.user_agent ∧
      row.online = info.online ∧ row.online_at = info.online_at ∧
      row.success = info.success ∧ row.success_at = info.success_at ∧
      row.next_refresh = info.next_refresh ∧ row.updated_at = now ∧
      (dbPutNode st now info).2.id = row.id ∧ 1 ≤ row.id) ∧
    (∀ ip2 port2, ¬(ip2 = info.ip ∧ port2 = info.port) →
      findNode (dbPutNode st now info).1.nodes ip2 port2 =
        findNode st.nodes ip2 port2) ∧
    WF (dbPutNode st now info).1 ∧
    (dbPutNode st now info).1.known = st.known ∧
    (dbPutNode st now info).2.next_refresh = info.next_refresh := by
  unfold idConsistent at hic
  cases hfind : findNode st.nodes info.ip info.port with
  | none =>
    rw [hfind] at hic
    have hic2 : info.id = ID_NOT_IN_DB := hic
    have hne0 : ¬ info.id = ID_UNKNOWN := by rw [hic2]; decide
    have hrow : findNode (insertNodeRow st now info).nodes info.ip info.port =
        some { id := nextNodeId st, ip := info.ip, port := info.port
               protocol := info.protocol, user_agent := info.user_agent
               online := info.online, success := info.success
               next_refresh := info.next_refresh
               online_at := info.online_at, success_at := info.success_at
               created_at := now, updated_at := now } := by
      unfold insertNodeRow
      rw [findNode_append, hfind]
      simp [findNode]
    have h1 : (0 : Int) ≤ st.nodes.foldl (fun m r => max m r.id) 0 :=
      le_foldl_max_id _ _
    have hput : dbPutNode st now info =
        (insertNodeRow st now info, dbGetNode (insertNodeRow st now info) info) := by
      unfold dbPutNode
      simp only [if_neg hne0, if_pos hic2, if_pos (Or.inr hic2)]
    rw [hput]
    refine ⟨⟨_, hrow, rfl, rfl, rfl, rfl, rfl, rfl, rfl, rfl, rfl, rfl, ?_, ?_⟩,
      ?_, ?_, ?_, ?_⟩
    · unfold dbGetNode
      rw [hrow]
    · show 1 ≤ nextNodeId st
      unfold nextNodeId
      omega
    · intro ip2 port2 hne
      unfold insertNodeRow
      rw [findNode_append,
        findNode_singleton_none _ _ _ (fun hc => hne ⟨hc.1.symm, hc.2.symm⟩),
        Option.or_none]
    · exact WF_insert h (by rw [hfind]) rfl
    · rfl
    · unfold dbGetNode
      rw [hrow]
  | some r0 =>
    rw [hfind] at hic
    have hic2 : info.id = r0.id := hic
    have hmem := (findNode_prop _ _ _ _ hfind).1
    have hid1 : 1 ≤ r0.id := h.2 r0 hmem
    have hne0 : ¬ info.id = ID_UNKNOWN := by rw [hic2]; unfold ID_UNKNOWN; omega
    have hnem1 : ¬ info.id = ID_NOT_IN_DB := by rw [hic2]; unfold ID_NOT_IN_DB; omega
    obtain ⟨hrip, hrport⟩ := (findNode_prop _ _ _ _ hfind).2
    have hput : dbPutNode st now info = (updateNodeRow st now info, info) := by
      unfold dbPutNode
      simp only [if_neg hne0, if_neg hnem1,
        if_neg (fun hc : _ ∨ _ => hc.elim hne0 hnem1)]
    rw [hput]
    set f : NodeRow → NodeRow := fun r =>
      { r with
        ip := info.ip
        port := info.port
        protocol := info.protocol
        user_agent := info.user_agent
        online := info.online
        success := info.success
        next_refresh := info.next_refresh
        online_at := info.online_at
        success_at := info.success_at
        updated_at := now } with hfdef
    have hf0 : (f r0).ip = r0.ip ∧ (f r0).port = r0.port := by
      simp [hfdef, hrip, hrport]
    have hupd : updateNodeRow st now info =
        { st with nodes := st.nodes.map fun r => if r.id = r0.id then f r else r } := by
      unfold updateNodeRow
      rw [hic2]
    rw [hupd]
    refine ⟨⟨f r0, findNode_update_self h hfind f hf0, ?_⟩, ?_, ?_, rfl, rfl⟩
    · simp [hfdef, hrip, hrport, hic2, hid1]
    · intro ip2 port2 hne
      exact findNode_update_frame h hfind f hf0 ip2 port2 hne
    · exact WF_update h hfind f ⟨hf0.1, hf0.2, rfl⟩

/-! ## Neighbour map lemmas -/

theorem assocGet_upsert_self (m : List (ip_port × dbNeighbourInfo)) (k : ip_port)
    (v : dbNeighbourInfo) : assocGet (assocUpsert m k v) k = some v := by
  unfold assocUpsert assocGet
  by_cases hany : m.any (fun e => e.1 = k)
  · rw [if_pos hany]
    induction m with
    | nil => simp at hany
    | cons a l ih =>
      by_cases ha : a.1 = k
      · simp only [List.map_cons, if_pos ha]
        rw [List.find?_cons_of_pos _ (by simp)]
        rfl
      · simp only [List.map_cons, if_neg ha]
        rw [List.find?_cons_of_neg _ (by simpa using ha)]
        refine ih ?_
        rcases List.any_eq_true.mp hany with ⟨e, hem, hek⟩
        rcases List.mem_cons.mp hem with rfl | hem2
        · exact absurd (by simpa using hek) ha
        · exact List.any_eq_true.mpr ⟨e, hem2, hek⟩
  · rw [if_neg hany, List.find?_append]
    have hnone : m.find? (fun e => e.1 = k) = none := by
      rw [List.find?_eq_none]
      intro e hem hc
      exact hany (List.any_eq_true.mpr ⟨e, hem, hc⟩)
    rw [hnone]
    simp

theorem assocGet_upsert_other (m : List (ip_port × dbNeighbourInfo)) (k k2 : ip_port)
    (v : dbNeighbourInfo) (hne : k2 ≠ k) :
    assocGet (assocUpsert m k v) k2 = assocGet m k2 := by
  unfold assocUpsert assocGet
  by_cases hany : m.any (fun e => e.1 = k)
  · rw [if_pos hany]
    clear hany
    induction m with
    | nil => rfl
    | cons a l ih =>
      simp only [List.map_cons]
      by_cases ha2 : a.1 = k2
      · have hak : ¬ a.1 = k := fun hc => hne (by rw [← ha2, hc])
        rw [if_neg hak,
          List.find?_cons_of_pos _ (by simpa using ha2),
          List.find?_cons_of_pos _ (by simpa using ha2)]
      · have hg : ¬ ((if a.1 = k then (k, v) else a).1 = k2) := by
          by_cases hak : a.1 = k
          · rw [if_pos hak]
            exact fun hc => hne hc.symm
          · rw [if_neg hak]
            exact ha2
        rw [List.find?_cons_of_neg _ (by simpa using hg),
          List.find?_cons_of_neg _ (by simpa using ha2)]
        exact ih
  · rw [if_neg hany, List.find?_append,
      List.find?_cons_of_neg _ (by simpa using fun hc : k = k2 => hne hc.symm),
      List.find?_nil]
    simp

theorem upsert_keys (m : List (ip_port × dbNeighbourInfo)) (k : ip_port)
    (v : dbNeighbourInfo) :
    ((assocUpsert m k v).map (·.1) = m.map (·.1) ∧ k ∈ m.map (·.1)) ∨
    ((assocUpsert m k v).map (·.1) = m.map (·.1) ++ [k] ∧ k ∉ m.map (·.1)) := by
  unfold assocUpsert
  by_cases hany : m.any (fun e => e.1 = k)
  · left
    constructor
    · rw [if_pos hany, List.map_map]
      refine List.map_congr_left ?_
      intro e hem
      by_cases he : e.1 = k
      · simp [he]
      · simp [he]
    · obtain ⟨e, hem, hek⟩ := List.any_eq_true.mp hany
      simp only [decide_eq_true_eq] at hek
      exact List.mem_map.mpr ⟨e, hem, hek⟩
  · right
    rw [if_neg hany]
    refine ⟨by simp, ?_⟩
    intro hc
    obtain ⟨e, hem, hek⟩ := List.mem_map.mp hc
    exact absurd (List.any_eq_true.mpr ⟨e, hem, by simp [hek]⟩) hany

theorem upsert_keys_nodup (m : List (ip_port × dbNeighbourInfo)) (k : ip_port)
    (v : dbNeighbourInfo) (h : (m.map (·.1)).Nodup) :
    ((assocUpsert m k v).map (·.1)).Nodup := by
  rcases upsert_keys m k v with ⟨heq, _⟩ | ⟨heq, hnk⟩
  · rw [heq]; exact h
  · rw [heq, List.nodup_append]
    refine ⟨h, by simp, ?_⟩
    intro a ha hc
    rw [List.mem_singleton] at hc
    subst hc
    exact hnk ha

theorem upsert_keys_mem (m : List (ip_port × dbNeighbourInfo)) (k k2 : ip_port)
    (v : dbNeighbourInfo) :
    k2 ∈ (assocUpsert m k v).map (·.1) ↔ k2 ∈ m.map (·.1) ∨ k2 = k := by
  rcases upsert_keys m k v with ⟨heq, hk⟩ | ⟨heq, _⟩
  · rw [heq]
    constructor
    · exact Or.inl
    · rintro (hm | rfl)
      · exact hm
      · exact hk
  · rw [heq]
    simp

theorem assocGet_of_mem_nodup (m : List (ip_port × dbNeighbourInfo))
    (h : (m.map (·.1)).Nodup) (k : ip_port) (v : dbNeighbourInfo)
    (hm : (k, v) ∈ m) : assocGet m k = some v := by
  induction m with
  | nil => simp at hm
  | cons a l ih =>
    rw [List.map_cons, List.nodup_cons] at h
    rcases List.mem_cons.mp hm with rfl | hm2
    · unfold assocGet
      rw [List.find?_cons_of_pos _ (by simp)]
      rfl
    · have hk : k ∈ l.map (·.1) := List.mem_map.mpr ⟨(k, v), hm2, rfl⟩
      have hane : ¬ (a.1 = k) := fun hc => h.1 (by rw [hc]; exact hk)
      unfold assocGet
      rw [List.find?_cons_of_neg _ (by simpa using hane)]
      exact ih h.2 hm2

theorem dbGetNeighbours_eq_fold (st : DBState) (l : List ip_port) :
    dbGetNeighbours st (some l) =
      l.foldl (fun m a => assocUpsert m a (neighOf st a)) [] := rfl

theorem foldUpsert_spec (st : DBState) :
    ∀ (l : List ip_port) (m : List (ip_port × dbNeighbourInfo)),
      (m.map (·.1)).Nodup →
      (∀ k, k ∈ m.map (·.1) → assocGet m k = some (neighOf st k)) →
      (((l.foldl (fun m a => assocUpsert m a (neighOf st a)) m).map (·.1)).Nodup ∧
       (∀ k, k ∈ (l.foldl (fun m a => assocUpsert m a (neighOf st a)) m).map (·.1) →
         assocGet (l.foldl (fun m a => assocUpsert m a (neighOf st a)) m) k =
           some (neighOf st k)) ∧
       (∀ k, k ∈ (l.foldl (fun m a => assocUpsert m a (neighOf st a)) m).map (·.1) ↔
         k ∈ m.map (·.1) ∨ k ∈ l)) := by
  intro l
  induction l with
  | nil =>
    intro m h1 h2
    exact ⟨h1, h2, fun k => by simp⟩
  | cons a l ih =>
    intro m h1 h2
    simp only [List.foldl_cons]
    have h1a := upsert_keys_nodup m a (neighOf st a) h1
    have h2a : ∀ k, k ∈ (assocUpsert m a (neighOf st a)).map (·.1) →
        assocGet (assocUpsert m a (neighOf st a)) k = some (neighOf st k) := by
      intro k hk
      by_cases hka : k = a
      · subst hka
        exact assocGet_upsert_self m k _
      · rw [assocGet_upsert_other m a k _ hka]
        rcases (upsert_keys_mem m a k _).mp hk with hm | rfl
        · exact h2 k hm
        · exact absurd rfl hka
    obtain ⟨g1, g2, g3⟩ := ih (assocUpsert m a (neighOf st a)) h1a h2a
    refine ⟨g1, g2, ?_⟩
    intro k
    rw [g3 k, upsert_keys_mem]
    constructor
    · rintro ((hm | rfl) | hl)
      · exact Or.inl hm
      · exact Or.inr (by simp)
      · exact Or.inr (by simp [hl])
    · rintro (hm | hal)
      · exact Or.inl (Or.inl hm)
      · rcases List.mem_cons.mp hal with rfl | hl
        · exact Or.inl (Or.inr rfl)
        · exact Or.inr hl

theorem bumpOne_idem (now fresh : Int) (v : dbNeighbourInfo) :
    bumpOne now fresh (bumpOne now fresh v) = bumpOne now fresh v := by
  unfold bumpOne
  by_cases h : v.next_refresh < now
  · rw [if_pos h]
    by_cases h2 : fresh < now <;> simp [h2]
  · rw [if_neg h, if_neg h]

theorem bumpOne_id (now fresh : Int) (v : dbNeighbourInfo) :
    (bumpOne now fresh v).id = v.id := by
  unfold bumpOne
  by_cases h : v.next_refresh < now <;> simp [h]

theorem foldBump_spec (now fresh : Int) :
    ∀ (l : List ip_port) (m : List (ip_port × dbNeighbourInfo)),
      (m.map (·.1)).Nodup →
      (∀ a ∈ l, a ∈ m.map (·.1)) →
      ((bumpNeighbours m l now fresh).map (·.1) = m.map (·.1)) ∧
      (∀ k v, assocGet m k = some v →
        assocGet (bumpNeighbours m l now fresh) k =
          some (if k ∈ l then bumpOne now fresh v else v)) := by
  intro l
  induction l with
  | nil =>
    intro m h1 h2
    refine ⟨rfl, ?_⟩
    intro k v hv
    simpa using hv
  | cons a l ih =>
    intro m h1 h2
    obtain ⟨ea, hea, hea1⟩ := List.mem_map.mp (h2 a (by simp))
    obtain ⟨a1, va⟩ := ea
    cases hea1
    have hva : assocGet m a1 = some va := assocGet_of_mem_nodup m h1 _ _ hea
    have hstep : bumpNeighbours m (a1 :: l) now fresh =
        bumpNeighbours
          (if ((assocGet m a1).getD {}).next_refresh < now
           then assocUpsert m a1
             { (assocGet m a1).getD {} with next_refresh := fresh }
           else m) l now fresh := rfl
    rw [hva] at hstep
    simp only [Option.getD_some] at hstep
    by_cases hlt : va.next_refresh < now
    · rw [if_pos hlt] at hstep
      have hbva : bumpOne now fresh va = { va with next_refresh := fresh } :=
        if_pos hlt
      rcases upsert_keys m a1 ({ va with next_refresh := fresh }) with
        ⟨heq, _⟩ | ⟨_, hnk⟩
      · have h1a : ((assocUpsert m a1 { va with next_refresh := fresh }).map (·.1)).Nodup := by
          rw [heq]; exact h1
        have h2a : ∀ a2 ∈ l, a2 ∈ (assocUpsert m a1 { va with next_refresh := fresh }).map (·.1) := by
          intro a2 ha2
          rw [heq]
          exact h2 a2 (by simp [ha2])
        obtain ⟨g1, g2⟩ := ih _ h1a h2a
        constructor
        · rw [hstep, g1, heq]
        · intro k v hv
          rw [hstep]
          by_cases hka : k = a1
          · subst hka
            have hvva : va = v := Option.some_injective _ (hva.symm.trans hv)
            subst hvva
            have hv2 : assocGet (assocUpsert m k { va with next_refresh := fresh }) k =
                some (bumpOne now fresh va) := by
              rw [assocGet_upsert_self, hbva]
            rw [g2 k _ hv2]
            by_cases hkl : k ∈ l <;> simp [hkl, bumpOne_idem]
          · have hv2 : assocGet (assocUpsert m a1 { va with next_refresh := fresh }) k =
                some v := by
              rw [assocGet_upsert_other m a1 k _ hka, hv]
            rw [g2 k _ hv2]
            by_cases hkl : k ∈ l <;> simp [hkl, List.mem_cons, hka]
      · exact absurd (h2 a1 (by simp)) hnk
    · rw [if_neg hlt] at hstep
      obtain ⟨g1, g2⟩ := ih m h1 (fun a2 ha2 => h2 a2 (by simp [ha2]))
      constructor
      · rw [hstep, g1]
      · intro k v hv
        rw [hstep, g2 k v hv]
        by_cases hka : k = a1
        · subst hka
          have hvva : va = v := Option.some_injective _ (hva.symm.trans hv)
          subst hvva
          have hbva : bumpOne now fresh va = va := if_neg hlt
          by_cases hkl : k ∈ l <;> simp [hkl, hbva]
        · by_cases hkl : k ∈ l <;> simp [hkl, List.mem_cons, hka]

theorem assocGet_mem (m : List (ip_port × dbNeighbourInfo)) (k : ip_port)
    (v : dbNeighbourInfo) (h : assocGet m k = some v) : (k, v) ∈ m := by
  unfold assocGet at h
  cases hf : m.find? (fun e => e.1 = k) with
  | none => rw [hf] at h; simp at h
  | some e =>
    rw [hf] at h
    simp only [Option.map_some'] at h
    have hmm := List.mem_of_find?_eq_some hf
    have hk : e.1 = k := by simpa using List.find?_some hf
    have he : e = (k, v) := Prod.ext hk (Option.some_injective _ h)
    exact he ▸ hmm

theorem WF_congr {st1 st2 : DBState} (h : st1.nodes = st2.nodes) (hw : WF st1) :
    WF st2 := by
  unfold WF at hw ⊢
  rw [← h]
  exact hw

theorem ip_port_ne_of_not_and {k2 k : ip_port}
    (hne : ¬(k2.ip = k.ip ∧ k2.port = k.port)) : k2 ≠ k := by
  intro hc
  subst hc
  exact hne ⟨rfl, rfl⟩

theorem ip_port_not_and_of_ne {k2 k : ip_port} (hne : k2 ≠ k) :
    ¬(k2.ip = k.ip ∧ k2.port = k.port) := by
  intro hc
  apply hne
  cases k2
  cases k
  simp only at hc
  simp [hc.1, hc.2]

/-- The effect of one dbPutNeighbours iteration on the `nodes` table: the
entry's endpoint gets a skeleton INSERT (absent) or an UPDATE of
next_refresh and updated_at (present); every other endpoint's lookup, and
well-formedness, are untouched. -/
theorem putOneNeighbour_spec (now myId : Int) (st : DBState) (k : ip_port)
    (v : dbNeighbourInfo) (h : WF st) (hc : entryConsistent st (k, v)) :
    WF (putOneNeighbour now myId st (k, v)) ∧
    (∀ k2 : ip_port, k2 ≠ k →
      findNode (putOneNeighbour now myId st (k, v)).nodes k2.ip k2.port =
        findNode st.nodes k2.ip k2.port) ∧
    (∃ row, findNode (putOneNeighbour now myId st (k, v)).nodes k.ip k.port =
        some row ∧
      row.ip = k.ip ∧ row.port = k.port ∧
      row.next_refresh = v.next_refresh ∧ row.updated_at = now ∧
      row.online = ((findNode st.nodes k.ip k.port).map (·.online)).getD false ∧
      row.success = ((findNode st.nodes k.ip k.port).map (·.success)).getD false ∧
      row.protocol = ((findNode st.nodes k.ip k.port).map (·.protocol)).getD 0 ∧
      row.user_agent =
        ((findNode st.nodes k.ip k.port).map (·.user_agent)).getD "" ∧
      row.online_at = ((findNode st.nodes k.ip k.port).map (·.online_at)).getD 0 ∧
      row.success_at =
        ((findNode st.nodes k.ip k.port).map (·.success_at)).getD 0) := by
  unfold entryConsistent at hc
  cases hfind : findNode st.nodes k.ip k.port with
  | none =>
    rw [hfind] at hc
    have hc2 : v.id = ID_NOT_IN_DB := hc
    have hid0 : ¬ v.id = ID_UNKNOWN := by rw [hc2]; decide
    have hput : (putOneNeighbour now myId st (k, v)).nodes =
        st.nodes ++ [{ id := nextNodeId st, ip := k.ip, port := k.port
                       protocol := 0, user_agent := ""
                       online := false, success := false
                       next_refresh := v.next_refresh
                       online_at := 0, success_at := 0
                       created_at := now, updated_at := now }] := by
      unfold putOneNeighbour
      simp only [if_neg hid0, if_pos hc2]
      split <;> rfl
    have hfr : findNode ((putOneNeighbour now myId st (k, v)).nodes) k.ip k.port =
        some { id := nextNodeId st, ip := k.ip, port := k.port
               protocol := 0, user_agent := ""
               online := false, success := false
               next_refresh := v.next_refresh
               online_at := 0, success_at := 0
               created_at := now, updated_at := now } := by
      rw [hput, findNode_append, hfind]
      simp [findNode]
    refine ⟨?_, ?_, ?_⟩
    · refine @WF_congr { st with nodes := (putOneNeighbour now myId st (k, v)).nodes } _ rfl ?_
      rw [hput]
      exact WF_insert h (by rw [hfind]) rfl
    · intro k2 hk2
      have hne := ip_port_not_and_of_ne hk2
      rw [hput, findNode_append,
        findNode_singleton_none _ _ _ (fun hcc => hne ⟨hcc.1.symm, hcc.2.symm⟩),
        Option.or_none]
    · exact ⟨_, hfr, rfl, rfl, rfl, rfl, rfl, rfl, rfl, rfl, rfl, rfl⟩
  | some r0 =>
    rw [hfind] at hc
    have hc2 : v.id = r0.id := hc
    have hmem := (findNode_prop _ _ _ _ hfind).1
    have hid1 : 1 ≤ r0.id := h.2 r0 hmem
    have hid0 : ¬ r0.id = ID_UNKNOWN := by unfold ID_UNKNOWN; omega
    have hidm1 : ¬ r0.id = ID_NOT_IN_DB := by unfold ID_NOT_IN_DB; omega
    set f : NodeRow → NodeRow := fun row =>
      { row with next_refresh := v.next_refresh, updated_at := now } with hfdef
    have hput : (putOneNeighbour now myId st (k, v)).nodes =
        st.nodes.map (fun row => if row.id = r0.id then f row else row) := by
      unfold putOneNeighbour
      dsimp only
      simp only [hc2, if_neg hid0, if_neg hidm1, hfdef]
      split <;> rfl
    have hf0 : (f r0).ip = r0.ip ∧ (f r0).port = r0.port := ⟨rfl, rfl⟩
    refine ⟨?_, ?_, ?_⟩
    · refine @WF_congr { st with nodes := (putOneNeighbour now myId st (k, v)).nodes } _ rfl ?_
      rw [hput]
      exact WF_update h hfind f ⟨rfl, rfl, rfl⟩
    · intro k2 hk2
      have hne := ip_port_not_and_of_ne hk2
      rw [hput]
      exact findNode_update_frame h hfind f hf0 k2.ip k2.port hne
    · refine ⟨f r0, ?_, ?_⟩
      · rw [hput]
        exact findNode_update_self h hfind f hf0
      · obtain ⟨_, hrip, hrport⟩ := findNode_prop _ _ _ _ hfind
        exact ⟨by simp [hfdef, hrip], by simp [hfdef, hrport], rfl, rfl,
          rfl, rfl, rfl, rfl, rfl, rfl⟩

/-- The dbPutNeighbours loop over all (distinct-key, id-consistent) map
entries: each listed endpoint's row ends with the entry's next_refresh and
`updated_at = now`, keeping its other columns (false/0/empty defaults when
freshly inserted); unlisted endpoints are untouched; well-formedness is
preserved. -/
theorem putNeighLoop_spec (now myId : Int) :
    ∀ (entries : List (ip_port × dbNeighbourInfo)) (st : DBState),
      WF st → ((entries.map (·.1)).Nodup) →
      (∀ e ∈ entries, entryConsistent st e) →
      (WF (entries.foldl (putOneNeighbour now myId) st) ∧
       (∀ k2 : ip_port, k2 ∉ entries.map (·.1) →
         findNode (entries.foldl (putOneNeighbour now myId) st).nodes k2.ip k2.port =
           findNode st.nodes k2.ip k2.port) ∧
       (∀ k val, (k, val) ∈ entries →
         ∃ row, findNode (entries.foldl (putOneNeighbour now myId) st).nodes
             k.ip k.port = some row ∧
           row.ip = k.ip ∧ row.port = k.port ∧
           row.next_refresh = val.next_refresh ∧ row.updated_at = now ∧
           row.online = ((findNode st.nodes k.ip k.port).map (·.online)).getD false ∧
           row.success =
             ((findNode st.nodes k.ip k.port).map (·.success)).getD false ∧
           row.protocol =
             ((findNode st.nodes k.ip k.port).map (·.protocol)).getD 0 ∧
           row.user_agent =
             ((findNode st.nodes k.ip k.port).map (·.user_agent)).getD "" ∧
           row.online_at =
             ((findNode st.nodes k.ip k.port).map (·.online_at)).getD 0 ∧
           row.success_at =
             ((findNode st.nodes k.ip k.port).map (·.success_at)).getD 0)) := by
  intro entries
  induction entries with
  | nil =>
    intro st h hnd hcons
    exact ⟨h, fun k2 _ => rfl, fun k val hm => by simp at hm⟩
  | cons e rest ih =>
    intro st h hnd hcons
    obtain ⟨k0, v0⟩ := e
    obtain ⟨hw1, hframe1, row0, hrow0, hrow0fields⟩ :=
      putOneNeighbour_spec now myId st k0 v0 h (hcons _ (by simp))
    rw [List.map_cons, List.nodup_cons] at hnd
    have hk0rest : ∀ e2 ∈ rest, e2.1 ≠ k0 := by
      intro e2 he2 hc
      exact hnd.1 (hc ▸ List.mem_map.mpr ⟨e2, he2, rfl⟩)
    have hcons2 : ∀ e2 ∈ rest, entryConsistent (putOneNeighbour now myId st (k0, v0)) e2 := by
      intro e2 he2
      have := hcons e2 (by simp [he2])
      unfold entryConsistent at this ⊢
      rw [hframe1 e2.1 (hk0rest e2 he2)]
      exact this
    obtain ⟨g1, g2, g3⟩ := ih (putOneNeighbour now myId st (k0, v0)) hw1 hnd.2 hcons2
    simp only [List.foldl_cons]
    refine ⟨g1, ?_, ?_⟩
    · intro k2 hk2
      simp only [List.map_cons, List.mem_cons] at hk2
      push_neg at hk2
      rw [g2 k2 hk2.2, hframe1 k2 hk2.1]
    · intro k val hm
      rcases List.mem_cons.mp hm with heq | hm2
      · have hk : k0 = k := congrArg Prod.fst heq.symm
        have hv : v0 = val := congrArg Prod.snd heq.symm
        subst hk
        subst hv
        have hout : findNode (rest.foldl (putOneNeighbour now myId)
            (putOneNeighbour now myId st (k0, v0))).nodes k0.ip k0.port =
            some row0 := by
          rw [g2 k0 ?_, hrow0]
          intro hc
          obtain ⟨e2, he2, he2k⟩ := List.mem_map.mp hc
          exact hk0rest e2 he2 he2k
        exact ⟨row0, hout, hrow0fields⟩
      · obtain ⟨row, hrow, hf1, hf2, hf3, hf4, hf5, hf6, hf7, hf8, hf9, hf10⟩ :=
          g3 k val hm2
        have hkk0 : k ≠ k0 := hk0rest (k, val) hm2
        rw [hframe1 k hkk0] at hf5 hf6 hf7 hf8 hf9 hf10
        exact ⟨row, hrow, hf1, hf2, hf3, hf4, hf5, hf6, hf7, hf8, hf9, hf10⟩

theorem neighOf_nr (st : DBState) (k : ip_port) :
    (neighOf st k).next_refresh = storedNR st k.ip k.port := by
  unfold neighOf storedNR
  cases findNode st.nodes k.ip k.port <;> rfl

theorem neighOf_id (st : DBState) (k : ip_port) :
    entryConsistent st (k, neighOf st k) := by
  unfold neighOf entryConsistent
  cases findNode st.nodes k.ip k.port <;> rfl

theorem saveInfo_fields (st : DBState) (now : Int) (nd : SavedNode) :
    (saveInfo st now nd).ip = nd.ip ∧ (saveInfo st now nd).port = nd.port ∧
    (saveInfo st now nd).online = nd.ConnOk ∧
    (saveInfo st now nd).success = nd.Version.isSome ∧
    (saveInfo st now nd).next_refresh =
      (if nd.ConnOk then now + NODE_REFRESH_INTERVAL * 3600 else 0) ∧
    (∀ v, nd.Version = some v →
      (saveInfo st now nd).protocol = (v.Protocol : Int) ∧
      (saveInfo st now nd).user_agent = v.UserAgent ∧
      (saveInfo st now nd).success_at = now) ∧
    (nd.ConnOk = true → (saveInfo st now nd).online_at = now) ∧
    idConsistent st nd.ip nd.port (saveInfo st now nd).id := by
  unfold saveInfo idConsistent dbGetNode
  cases hv : nd.Version <;> cases hc : nd.ConnOk <;>
    cases hfind : findNode st.nodes nd.ip nd.port <;>
    simp_all

theorem filter_map_eq (l : List NodeRow) (g : NodeRow → NodeRow)
    (p : NodeRow → Bool)
    (h : ∀ r ∈ l, p (g r) = p r ∧ (p r = true → g r = r)) :
    (l.map g).filter p = l.filter p := by
  induction l with
  | nil => rfl
  | cons a l ih =>
    have ha := h a (by simp)
    have ihl := ih fun r hr => h r (by simp [hr])
    by_cases hp : p a
    · rw [List.map_cons, List.filter_cons_of_pos (by rw [ha.1]; exact hp),
        List.filter_cons_of_pos hp, ihl, ha.2 hp]
    · rw [List.map_cons, List.filter_cons_of_neg (by rw [ha.1]; simpa using hp),
        List.filter_cons_of_neg (by simpa using hp), ihl]

/-- dbPutNode leaves the multiset of rows at every other endpoint
untouched, row for row. -/
theorem dbPutNode_others (st : DBState) (now : Int) (info : dbNodeInfo)
    (h : WF st) (hic : idConsistent st info.ip info.port info.id) :
    ((dbPutNode st now info).1.nodes.filter
      (fun r => ¬(r.ip = info.ip ∧ r.port = info.port))) =
      (st.nodes.filter (fun r => ¬(r.ip = info.ip ∧ r.port = info.port))) := by
  unfold idConsistent at hic
  cases hfind : findNode st.nodes info.ip info.port with
  | none =>
    rw [hfind] at hic
    have hic2 : info.id = ID_NOT_IN_DB := hic
    have hne0 : ¬ info.id = ID_UNKNOWN := by rw [hic2]; decide
    have hput : (dbPutNode st now info).1 = insertNodeRow st now info := by
      unfold dbPutNode
      simp only [if_neg hne0, if_pos hic2, if_pos (Or.inr hic2)]
    rw [hput]
    unfold insertNodeRow
    simp only [List.filter_append]
    rw [List.filter_cons_of_neg (by simp), List.filter_nil, List.append_nil]
  | some r0 =>
    rw [hfind] at hic
    have hic2 : info.id = r0.id := hic
    have hmem := (findNode_prop _ _ _ _ hfind).1
    obtain ⟨hrip, hrport⟩ := (findNode_prop _ _ _ _ hfind).2
    have hid1 : 1 ≤ r0.id := h.2 r0 hmem
    have hne0 : ¬ info.id = ID_UNKNOWN := by rw [hic2]; unfold ID_UNKNOWN; omega
    have hnem1 : ¬ info.id = ID_NOT_IN_DB := by rw [hic2]; unfold ID_NOT_IN_DB; omega
    have hput : (dbPutNode st now info).1 = updateNodeRow st now info := by
      unfold dbPutNode
      simp only [if_neg hne0, if_neg hnem1,
        if_neg (fun hc : _ ∨ _ => hc.elim hne0 hnem1)]
    rw [hput]
    unfold updateNodeRow
    refine filter_map_eq _ _ _ ?_
    intro r hr
    by_cases hid : r.id = info.id
    · have hrr0 : r = r0 := WF_same_id h hr hmem (by rw [hid, hic2])
      subst hrr0
      constructor
      · simp [hid, hrip, hrport]
      · intro hp
        simp [hrip, hrport] at hp
    · simp [hid]

/-- The writer transaction, end to end: the crawled peer's row carries the
derived columns (`online` from the connect outcome, `success` from the
handshake outcome, `next_refresh` = now + 24h when online and 0 when not,
protocol/user_agent/success_at copied on success, `updated_at = now`), and
every listed neighbour other than the peer itself ends with `next_refresh`
bumped to the peer's fresh `next_refresh` exactly when its stored value
lay strictly before `now`. -/
theorem Save_spec (st : DBState) (now : Int) (nd : SavedNode) (h : WF st) :
    WF (Save st now nd) ∧
    (∃ row, findNode (Save st now nd).nodes nd.ip nd.port = some row ∧
      row.online = nd.ConnOk ∧
      row.success = nd.Version.isSome ∧
      row.next_refresh =
        (if nd.ConnOk then now + NODE_REFRESH_INTERVAL * 3600 else 0) ∧
      (∀ v, nd.Version = some v → row.protocol = (v.Protocol : Int) ∧
        row.user_agent = v.UserAgent ∧ row.success_at = now) ∧
      (nd.ConnOk = true → row.online_at = now) ∧
      row.updated_at = now) ∧
    (∀ a : ip_port, a ∈ nd.Addresses.getD [] → a ≠ ⟨nd.ip, nd.port⟩ →
      ∃ row, findNode (Save st now nd).nodes a.ip a.port = some row ∧
        row.next_refresh =
          (if storedNR st a.ip a.port < now
           then (if nd.ConnOk then now + NODE_REFRESH_INTERVAL * 3600 else 0)
           else storedNR st a.ip a.port) ∧
        row.updated_at = now) := by
  obtain ⟨hip, hport, honl, hsucc, hnr, hver, hconnat, hic0⟩ := saveInfo_fields st now nd
  have hic : idConsistent st (saveInfo st now nd).ip (saveInfo st now nd).port
      (saveInfo st now nd).id := by
    rw [hip, hport]; exact hic0
  obtain ⟨⟨row1, hrow1, hr1ip, hr1port, hr1prot, hr1ua, hr1onl, hr1onlat,
      hr1succ, hr1succat, hr1nr, hr1upd, hinfo1id, hrow1pos⟩,
    hframe1, hWF1, hknown1, hinfo1nr⟩ :=
    dbPutNode_spec st now (saveInfo st now nd) h hic
  rw [hip, hport] at hrow1 hframe1
  have hrowfields :
      row1.online = nd.ConnOk ∧ row1.success = nd.Version.isSome ∧
      row1.next_refresh =
        (if nd.ConnOk then now + NODE_REFRESH_INTERVAL * 3600 else 0) ∧
      (∀ v, nd.Version = some v → row1.protocol = (v.Protocol : Int) ∧
        row1.user_agent = v.UserAgent ∧ row1.success_at = now) ∧
      (nd.ConnOk = true → row1.online_at = now) ∧
      row1.updated_at = now := by
    refine ⟨hr1onl.trans honl, hr1succ.trans hsucc, hr1nr.trans hnr, ?_, ?_, hr1upd⟩
    · intro v hv
      exact ⟨hr1prot.trans (hver v hv).1, hr1ua.trans (hver v hv).2.1,
        hr1succat.trans (hver v hv).2.2⟩
    · intro hcc
      exact hr1onlat.trans (hconnat hcc)
  cases haddr : nd.Addresses with
  | none =>
    have hsave : Save st now nd = (dbPutNode st now (saveInfo st now nd)).1 := by
      unfold Save
      rw [haddr]
      rfl
    rw [hsave]
    refine ⟨hWF1, ⟨row1, hrow1, hrowfields⟩, ?_⟩
    intro a ha
    simp at ha
  | some l =>
    have hfold := foldUpsert_spec (dbPutNode st now (saveInfo st now nd)).1 l []
      (by simp) (by simp [assocGet])
    rw [← dbGetNeighbours_eq_fold] at hfold
    obtain ⟨hnd1, hval1, hkeys1⟩ := hfold
    have hsubset : ∀ a ∈ l,
        a ∈ (dbGetNeighbours (dbPutNode st now (saveInfo st now nd)).1 (some l)).map (·.1) :=
      fun a ha => (hkeys1 a).mpr (Or.inr ha)
    obtain ⟨hkeys2, hval2⟩ :=
      foldBump_spec now ((dbPutNode st now (saveInfo st now nd)).2.next_refresh) l
        (dbGetNeighbours (dbPutNode st now (saveInfo st now nd)).1 (some l)) hnd1 hsubset
    set st1 := (dbPutNode st now (saveInfo st now nd)).1 with hst1
    set fresh := (dbPutNode st now (saveInfo st now nd)).2.next_refresh with hfreshdef
    set E := dbGetNeighbours st1 (some l) with hE
    set E2 := bumpNeighbours E l now fresh with hE2
    have hfreshval : fresh = (if nd.ConnOk then now + NODE_REFRESH_INTERVAL * 3600 else 0) :=
      hinfo1nr.trans hnr
    have hsave : Save st now nd =
        dbPutNeighbours st1 now (dbPutNode st now (saveInfo st now nd)).2 E2 := by
      unfold Save
      rw [haddr]
      rfl
    have hnd2 : (E2.map (·.1)).Nodup := by rw [hkeys2]; exact hnd1
    have hvalE2 : ∀ e ∈ E2, e.2 =
        (if e.1 ∈ l then bumpOne now fresh (neighOf st1 e.1) else neighOf st1 e.1) := by
      intro e he
      obtain ⟨ek, ev⟩ := e
      have hkE2 : ek ∈ E2.map (·.1) := List.mem_map.mpr ⟨(ek, ev), he, rfl⟩
      have hkE : ek ∈ E.map (·.1) := by rw [← hkeys2]; exact hkE2
      have hg1 : assocGet E ek = some (neighOf st1 ek) := hval1 ek hkE
      have hg2 := hval2 ek _ hg1
      have hg3 : assocGet E2 ek = some ev :=
        assocGet_of_mem_nodup E2 hnd2 ek ev he
      exact Option.some_injective _ (hg3.symm.trans hg2)
    have hcons : ∀ e ∈ E2, entryConsistent st1 e := by
      intro e he
      have hv2 := hvalE2 e he
      have hid2 : e.2.id = (neighOf st1 e.1).id := by
        rw [hv2]
        by_cases hel : e.1 ∈ l
        · rw [if_pos hel]; exact bumpOne_id _ _ _
        · rw [if_neg hel]
      have hni := neighOf_id st1 e.1
      unfold entryConsistent at hni ⊢
      cases hf : findNode st1.nodes e.1.ip e.1.port with
      | none =>
        rw [hf] at hni
        exact hid2.trans hni
      | some r =>
        rw [hf] at hni
        exact hid2.trans hni
    by_cases hl0 : E2.length = 0
    · have hpn : dbPutNeighbours st1 now (dbPutNode st now (saveInfo st now nd)).2 E2 = st1 := by
        unfold dbPutNeighbours
        rw [if_pos hl0]
      rw [hsave, hpn]
      refine ⟨hWF1, ⟨row1, hrow1, hrowfields⟩, ?_⟩
      intro a ha _
      exfalso
      simp only [Option.getD_some] at ha
      have hmm : a ∈ E2.map (·.1) := by rw [hkeys2]; exact hsubset a ha
      rw [List.length_eq_zero.mp hl0] at hmm
      simp at hmm
    · have hpn : ∃ myId,
          dbPutNeighbours st1 now (dbPutNode st now (saveInfo st now nd)).2 E2 =
            E2.foldl (putOneNeighbour now myId) st1 := by
        unfold dbPutNeighbours
        rw [if_neg hl0]
        exact ⟨_, rfl⟩
      obtain ⟨myId, hpn⟩ := hpn
      rw [hsave, hpn]
      obtain ⟨G1, G2, G3⟩ := putNeighLoop_spec now myId E2 st1 hWF1 hnd2 hcons
      have hneighc : neighOf st1 ⟨nd.ip, nd.port⟩ =
          { id := row1.id, next_refresh := row1.next_refresh } := by
        unfold neighOf
        dsimp only
        rw [hrow1]
      refine ⟨G1, ?_, ?_⟩
      · by_cases hk0 : (⟨nd.ip, nd.port⟩ : ip_port) ∈ E2.map (·.1)
        · obtain ⟨e0, he0, he0k⟩ := List.mem_map.mp hk0
          obtain ⟨k0, v0⟩ := e0
          dsimp only at he0k
          subst he0k
          obtain ⟨row, hrow, hfip, hfport, hfnr, hfupd, hfonl, hfsucc, hfprot,
            hfua, hfonlat, hfsuccat⟩ := G3 _ v0 he0
          dsimp only at hrow hfnr hfupd hfonl hfsucc hfprot hfua hfonlat hfsuccat
          rw [hrow1] at hfonl hfsucc hfprot hfua hfonlat hfsuccat
          simp only [Option.map_some', Option.getD_some] at hfonl hfsucc hfprot hfua hfonlat hfsuccat
          have hv0 := hvalE2 _ he0
          dsimp only at hv0
          have hv0nr : v0.next_refresh = row1.next_refresh := by
            rw [hv0]
            by_cases hel : (⟨nd.ip, nd.port⟩ : ip_port) ∈ l
            · rw [if_pos hel, hneighc]
              unfold bumpOne
              dsimp only
              by_cases hlt : row1.next_refresh < now
              · rw [if_pos hlt]
                exact hinfo1nr.trans hr1nr.symm
              · rw [if_neg hlt]
            · rw [if_neg hel, hneighc]
          refine ⟨row, hrow, ?_, ?_, ?_, ?_, ?_, hfupd⟩
          · rw [hfonl]; exact hrowfields.1
          · rw [hfsucc]; exact hrowfields.2.1
          · rw [hfnr, hv0nr]; exact hrowfields.2.2.1
          · intro v hv
            exact ⟨hfprot.trans ((hrowfields.2.2.2.1) v hv).1,
              hfua.trans ((hrowfields.2.2.2.1) v hv).2.1,
              hfsuccat.trans ((hrowfields.2.2.2.1) v hv).2.2⟩
          · intro hcc
            rw [hfonlat]
            exact hrowfields.2.2.2.2.1 hcc
        · have hfr := G2 ⟨nd.ip, nd.port⟩ hk0
          dsimp only at hfr
          rw [hfr, hrow1]
          exact ⟨row1, rfl, hrowfields⟩
      · intro a ha hne
        simp only [Option.getD_some] at ha
        have hak : a ∈ E2.map (·.1) := by rw [hkeys2]; exact hsubset a ha
        obtain ⟨e0, he0, he0k⟩ := List.mem_map.mp hak
        obtain ⟨k0, v0⟩ := e0
        dsimp only at he0k
        subst he0k
        obtain ⟨row, hrow, _, _, hfnr, hfupd, _, _, _, _, _, _⟩ := G3 _ v0 he0
        have hv0 := hvalE2 _ he0
        dsimp only at hv0
        rw [if_pos ha] at hv0
        have hfr2 : findNode st1.nodes k0.ip k0.port = findNode st.nodes k0.ip k0.port :=
          hframe1 k0.ip k0.port (ip_port_not_and_of_ne hne)
        have hsnr : (neighOf st1 k0).next_refresh = storedNR st k0.ip k0.port := by
          rw [neighOf_nr]
          unfold storedNR
          rw [hfr2]
        have hv0nr : v0.next_refresh =
            (if storedNR st k0.ip k0.port < now
             then (if nd.ConnOk then now + NODE_REFRESH_INTERVAL * 3600 else 0)
             else storedNR st k0.ip k0.port) := by
          rw [hv0]
          unfold bumpOne
          by_cases hlt : storedNR st k0.ip k0.port < now
          · rw [if_pos (by rw [hsnr]; exact hlt), if_pos hlt]
            exact hfreshval
          · rw [if_neg (by rw [hsnr]; exact hlt), if_neg hlt]
            exact hsnr
        exact ⟨row, hrow, hfnr.trans hv0nr, hfupd⟩

/-- C1 (counterexample): against `scNoVerack` the peer sends a valid
version message and the connection then errors before any verack, yet the
driver records the decoded version, and saving the resulting crawl marks
the row `success = true` — not false as claimed. -/
theorem success_true_without_verack_cex :
    (refreshNode scNoVerack).Version = some versionW ∧
    scNoVerack.recvs.drop 1 = [.error .shortHeader] ∧
    (findNode (Save emptyDB 1000 ndNoVerack).nodes "1.2.3.4" "8333").map
      (fun r => (r.success, r.success_at)) = some (true, 1000) := by
  decide

/-- C1 (amended): for every crawled peer whose TCP connect succeeded, the
persisted row has `success = true` if and only if a valid version message
was decoded — and then `success_at = now` with the protocol and user agent
copied from it; with no decoded version the row has `success = false`.
The handshake's verack plays no part: `refreshNode` stores the decoded
version before demanding verack, so whenever the message after version is
anything but an ok verack the forwarded record still carries the decoded
version, and is therefore persisted with `success = true`. -/
theorem success_records_version_without_verack (st : DBState) (now : Int)
    (nd : SavedNode) (h : WF st) (_hconn : nd.ConnOk = true) :
    (∃ row, findNode (Save st now nd).nodes nd.ip nd.port = some row ∧
      (row.success = true ↔ nd.Version.isSome = true) ∧
      (nd.Version = none → row.success = false) ∧
      (∀ v, nd.Version = some v → row.success = true ∧ row.success_at = now ∧
        row.protocol = (v.Protocol : Int) ∧ row.user_agent = v.UserAgent)) ∧
    (∀ (sc : Script) (vm : Message) (v : MsgVersion)
        (rest : List (Except RecvErr Message)),
      nd.Version = (refreshNode sc).Version →
      sc.sends 0 = none → sc.recvs = .ok vm :: rest →
      vm.MsgType = "version" → parseVersion vm = .ok v →
      (∀ m rest2, rest = .ok m :: rest2 → m.MsgType ≠ "verack") →
      nd.Version = some v) := by
  constructor
  · obtain ⟨-, ⟨row, hfind, hon, hsucc2, hnr2, hver2, hconnat2, hupd⟩, -⟩ :=
      Save_spec st now nd h
    refine ⟨row, hfind, ?_, ?_, ?_⟩
    · rw [hsucc2]
    · intro hvn
      rw [hsucc2, hvn]
      rfl
    · intro v hv
      refine ⟨?_, (hver2 v hv).2.2, (hver2 v hv).1, (hver2 v hv).2.1⟩
      rw [hsucc2, hv]
      rfl
  · intro sc vm v rest hndv hsend hrecv hvm hpv hnoverack
    have hVer : (refreshNode sc).Version = some v := by
      unfold refreshNode
      rw [hsend]
      dsimp only
      rw [hrecv]
      dsimp only
      rw [if_neg (by simp [hvm]), hpv]
      dsimp only
      cases rest with
      | nil => rfl
      | cons hd tl =>
        cases hd with
        | error e => rfl
        | ok mk =>
          dsimp only
          rw [if_pos (hnoverack mk tl rfl)]
    exact hndv.trans hVer

/-- C1 (amended, witness): the instantiation on the no-verack crawl
result and the empty store; every hypothesis is discharged concretely. -/
theorem success_records_version_witness :
    (WF emptyDB ∧ ndNoVerack.ConnOk = true) ∧
    ((∃ row, findNode (Save emptyDB 1000 ndNoVerack).nodes
        ndNoVerack.ip ndNoVerack.port = some row ∧
      (row.success = true ↔ ndNoVerack.Version.isSome = true) ∧
      (ndNoVerack.Version = none → row.success = false) ∧
      (∀ v, ndNoVerack.Version = some v → row.success = true ∧
        row.success_at = 1000 ∧ row.protocol = (v.Protocol : Int) ∧
        row.user_agent = v.UserAgent)) ∧
    (∀ (sc : Script) (vm : Message) (v : MsgVersion)
        (rest : List (Except RecvErr Message)),
      ndNoVerack.Version = (refreshNode sc).Version →
      sc.sends 0 = none → sc.recvs = .ok vm :: rest →
      vm.MsgType = "version" → parseVersion vm = .ok v →
      (∀ m rest2, rest = .ok m :: rest2 → m.MsgType ≠ "verack") →
      ndNoVerack.Version = some v)) :=
  ⟨⟨by decide, rfl⟩,
    success_records_version_without_verack emptyDB 1000 ndNoVerack (by decide) rfl⟩

/-- C2 (counterexample): saving an online, handshaked crawl that lists
the previously unknown neighbour 10.0.0.1:8333 inserts a skeleton row
for it with `online = false` but `next_refresh = 87400 ≠ 0`: the claimed
table-wide invariant fails on neighbour rows written by the same
transaction. -/
theorem offline_row_nonzero_refresh_cex :
    (findNode (Save emptyDB 1000 ndOneNeighbour).nodes "10.0.0.1" "8333").map
      (fun r => (r.online, r.next_refresh)) = some (false, 87400) := by
  decide

/-- C2 (amended): the invariant `online = false → next_refresh = 0` holds
for the crawled peer's own row after every writer transaction (an offline
peer is parked), but not for every row: neighbour skeleton rows are
written with `online = false` and the bumped, non-zero `next_refresh`
(see the counterexample). -/
theorem offline_crawled_row_parked (st : DBState) (now : Int) (nd : SavedNode)
    (h : WF st) :
    ∃ row, findNode (Save st now nd).nodes nd.ip nd.port = some row ∧
      (row.online = false → row.next_refresh = 0) := by
  obtain ⟨-, ⟨row, hfind, hon, -, hnr, -⟩, -⟩ := Save_spec st now nd h
  refine ⟨row, hfind, ?_⟩
  intro hoff
  have hcc : nd.ConnOk = false := hon.symm.trans hoff
  rw [hnr]
  simp [hcc]

/-- C2 (amended, witness): the crawled row of the counterexample
transaction does satisfy the restricted invariant. -/
theorem offline_crawled_row_parked_witness :
    WF emptyDB ∧
    (∃ row, findNode (Save emptyDB 1000 ndOneNeighbour).nodes
        ndOneNeighbour.ip ndOneNeighbour.port = some row ∧
      (row.online = false → row.next_refresh = 0)) :=
  ⟨by decide, offline_crawled_row_parked emptyDB 1000 ndOneNeighbour (by decide)⟩

/-- C3: neighbour reconciliation sets each listed neighbour's
`next_refresh` (any neighbour other than the crawled endpoint itself)
equal to the crawled peer's freshly chosen `next_refresh` — now + 24h
when the peer was online, 0 when not — exactly when the neighbour's
stored `next_refresh` lies strictly before the transaction's single
captured `now`, and leaves it unchanged otherwise. -/
theorem neighbour_bump_iff_past (st : DBState) (now : Int) (nd : SavedNode)
    (a : ip_port) (h : WF st) (ha : a ∈ nd.Addresses.getD [])
    (hne : a ≠ { ip := nd.ip, port := nd.port }) :
    ∃ row, findNode (Save st now nd).nodes a.ip a.port = some row ∧
      row.next_refresh =
        (if storedNR st a.ip a.port < now
         then (if nd.ConnOk then now + NODE_REFRESH_INTERVAL * 3600 else 0)
         else storedNR st a.ip a.port) := by
  obtain ⟨-, -, h3⟩ := Save_spec st now nd h
  obtain ⟨row, h1, h2, -⟩ := h3 a ha hne
  exact ⟨row, h1, h2⟩

/-- C3 (witness): the neighbour of `ndOneNeighbour` starts absent
(stored next_refresh 0, in the past of now = 1000) and is bumped to the
peer's fresh next_refresh 1000 + 24·3600. -/
theorem neighbour_bump_iff_past_witness :
    (WF emptyDB ∧
      (⟨"10.0.0.1", "8333"⟩ : ip_port) ∈ ndOneNeighbour.Addresses.getD [] ∧
      (⟨"10.0.0.1", "8333"⟩ : ip_port) ≠
        { ip := ndOneNeighbour.ip, port := ndOneNeighbour.port }) ∧
    (∃ row, findNode (Save emptyDB 1000 ndOneNeighbour).nodes
        (⟨"10.0.0.1", "8333"⟩ : ip_port).ip
        (⟨"10.0.0.1", "8333"⟩ : ip_port).port = some row ∧
      row.next_refresh =
        (if storedNR emptyDB (⟨"10.0.0.1", "8333"⟩ : ip_port).ip
            (⟨"10.0.0.1", "8333"⟩ : ip_port).port < 1000
         then (if ndOneNeighbour.ConnOk
               then 1000 + NODE_REFRESH_INTERVAL * 3600 else 0)
         else storedNR emptyDB (⟨"10.0.0.1", "8333"⟩ : ip_port).ip
            (⟨"10.0.0.1", "8333"⟩ : ip_port).port)) :=
  ⟨⟨by decide, by decide, by decide⟩,
    neighbour_bump_iff_past emptyDB 1000 ndOneNeighbour ⟨"10.0.0.1", "8333"⟩
      (by decide) (by decide) (by decide)⟩

/-- C10: a crawl result with a nil or empty learned-address list modifies
at most the crawled endpoint's own `nodes` row: `nodes_known` is
untouched and the rows at every other `(ip, port)` are exactly those of
the pre-state, row for row. -/
theorem save_no_addresses_frame (st : DBState) (now : Int) (nd : SavedNode)
    (h : WF st) (hA : nd.Addresses = none ∨ nd.Addresses = some []) :
    (Save st now nd).known = st.known ∧
    (Save st now nd).nodes.filter (fun r => ¬(r.ip = nd.ip ∧ r.port = nd.port)) =
      st.nodes.filter (fun r => ¬(r.ip = nd.ip ∧ r.port = nd.port)) := by
  obtain ⟨hip, hport, -, -, -, -, -, hic0⟩ := saveInfo_fields st now nd
  have hic : idConsistent st (saveInfo st now nd).ip (saveInfo st now nd).port
      (saveInfo st now nd).id := by rw [hip, hport]; exact hic0
  have hsave : Save st now nd = (dbPutNode st now (saveInfo st now nd)).1 := by
    unfold Save
    cases hA with
    | inl hA => rw [hA]; rfl
    | inr hA => rw [hA]; rfl
  obtain ⟨-, -, -, hknown, -⟩ := dbPutNode_spec st now (saveInfo st now nd) h hic
  have hothers := dbPutNode_others st now (saveInfo st now nd) h hic
  simp only [hip, hport] at hothers
  rw [hsave]
  exact ⟨hknown, hothers⟩

/-- C10 (witness): saving the no-address crawl of 1.2.3.4:8333 over the
one-row store leaves the other endpoint's row and the empty edge table
as they were. -/
theorem save_no_addresses_frame_witness :
    (WF stEligible ∧ (ndNoVerack.Addresses = none ∨ ndNoVerack.Addresses = some [])) ∧
    ((Save stEligible 777 ndNoVerack).known = stEligible.known ∧
      (Save stEligible 777 ndNoVerack).nodes.filter
        (fun r => ¬(r.ip = ndNoVerack.ip ∧ r.port = ndNoVerack.port)) =
        stEligible.nodes.filter
          (fun r => ¬(r.ip = ndNoVerack.ip ∧ r.port = ndNoVerack.port))) :=
  ⟨⟨by decide, Or.inl rfl⟩,
    save_no_addresses_frame stEligible 777 ndNoVerack (by decide) (Or.inl rfl)⟩

end BtcCrawler
